import Mathlib

/-!
# gendot: composition of a combine ufunc and a reduce ufunc

Shallow embedding of `src/gendot/gendotmodule.c` (LP64: `int` is 32 bits,
`npy_intp` and `size_t` are 64 bits, pointers are 8 bytes).

* Memory is a map from addresses to cells.  The C code never inspects a cell:
  it copies cells (`memcpy`) and hands pointers to the loop functions, so the
  cell type is a parameter.
* A function pointer is an address; `code` gives the behaviour of the loop
  function stored at each address.
* Every call through a function pointer, every `malloc` and every `free` is
  appended to the trace of the state.
* `int` loop counters wrap modulo `2^32`; loops take fuel and answer `none`
  when the fuel runs out.
-/

namespace Gendot

/-! ## Machine integers -/

/-- Value of an `int` expression whose mathematical result is `x`. -/
def wrapInt (x : Int) : Int := (x + 2 ^ 31) % 2 ^ 32 - 2 ^ 31

/-- Conversion of an integer value to `size_t`. -/
def toSizeT (x : Int) : Nat := (x % 2 ^ 64).toNat

/-- Conversion of an integer value to `npy_intp`. -/
def toIntp (x : Int) : Int := (x + 2 ^ 63) % 2 ^ 64 - 2 ^ 63

/-- Product of two `size_t` values. -/
def mulSizeT (a b : Nat) : Nat := (a * b) % 2 ^ 64

/-- Sum of two `size_t` values. -/
def addSizeT (a b : Nat) : Nat := (a + b) % 2 ^ 64

/-! ## Memory, loop functions, states -/

/-- Memory: one cell per address.  Addresses, the values of `char *` and of
function pointers, are integers. -/
abbrev Mem (β : Type) := Int → β

/-- Behaviour of a `PyUFuncGenericFunction`:
`f args dimensions steps data` transforms memory. -/
abbrev LoopFn (β : Type) := List Int → List Int → List Int → Int → Mem β → Mem β

/-- Observable actions of the loop code. -/
inductive Event where
  | call (fn : Int) (args : List Int) (dimensions : List Int) (steps : List Int) (data : Int)
  | malloc (size : Nat) (result : Option Int)
  | free (p : Int)
deriving DecidableEq, Repr

/-- Machine state: memory and the trace of actions, oldest first. -/
structure State (β : Type) where
  mem : Mem β
  trace : List Event

/-- The `memcpy(dest, src, n)` of non-overlapping regions. -/
def memcpy {β : Type} (dest src : Int) (n : Nat) (m : Mem β) : Mem β :=
  fun a => if dest ≤ a ∧ a < dest + n then m (src + (a - dest)) else m a

/-- Call through the function pointer `fn`. -/
def invoke {β : Type} (code : Int → LoopFn β) (fn : Int) (args : List Int)
    (dimensions steps : List Int) (data : Int) (s : State β) : State β :=
  { mem := code fn args dimensions steps data s.mem
    trace := s.trace ++ [Event.call fn args dimensions steps data] }

/-! ## `reduce` (lines 41-70) -/

/-- The `for (int k = 1; k < n; ++k, data += stride)` loop of `reduce`,
entered with the current values of `k` and `data`. -/
def reduce_loop {β : Type} (code : Int → LoopFn β) (loop_function loop_data : Int)
    (n stride : Int) (result : Int) : Nat → Int → Int → State β → Option (State β)
  | 0, k, _, s => if k < n then none else some s
  | fuel + 1, k, data, s =>
    if k < n then
      reduce_loop code loop_function loop_data n stride result fuel
        (wrapInt (k + 1)) (data + stride)
        (invoke code loop_function [result, data, result] [1] [stride, stride, stride]
          loop_data s)
    else some s

/-- The function `reduce`. -/
def reduce {β : Type} (code : Int → LoopFn β) (fuel : Nat) (loop_function loop_data : Int)
    (data : Int) (n stride itemsize : Int) (result : Int) (s : State β) :
    Option (State β) :=
  if n ≤ 0 then some s
  else
    let s1 : State β := { s with mem := memcpy result data (toSizeT itemsize) s.mem }
    if n = 1 then some s1
    else reduce_loop code loop_function loop_data n stride result fuel 1 (data + stride) s1

/-! ## `gendot_loop` (lines 81-142) -/

/-- The record `gendot_data_t` (lines 15-21). -/
structure gendot_data_t where
  prodfunc_loop : Int
  prodfunc_loop_data : Int
  sumfunc_loop : Int
  sumfunc_loop_data : Int
  sumfunc_loop_itemsize : Int
deriving DecidableEq, Repr

/-- Size requested for the scratch buffer: `dimensions[1] * itemsize` in `size_t`. -/
def scratch_size (dimensions : List Int) (data : gendot_data_t) : Nat :=
  mulSizeT (toSizeT (dimensions.getD 1 0)) (toSizeT data.sumfunc_loop_itemsize)

/-- The `for (int j = 0; j < nloops; ++j, px += steps[0], py += steps[1],
pout += steps[2])` loop of `gendot_loop`. -/
def gendot_outer {β : Type} (code : Int → LoopFn β) (rfuel : Nat)
    (dimensions steps : List Int) (data : gendot_data_t) (tmp : Int) :
    Nat → Int → Int → Int → Int → State β → Option (State β)
  | 0, j, _, _, _, s => if j < dimensions.getD 0 0 then none else some s
  | fuel + 1, j, px, py, pout, s =>
    if j < dimensions.getD 0 0 then
      let itemsize : Nat := toSizeT data.sumfunc_loop_itemsize
      let s1 := invoke code data.prodfunc_loop [px, py, tmp]
        [dimensions.getD 1 0, dimensions.getD 1 0, dimensions.getD 1 0]
        [steps.getD 3 0, steps.getD 4 0, toIntp itemsize] data.prodfunc_loop_data s
      match reduce code rfuel data.sumfunc_loop data.sumfunc_loop_data tmp
          (dimensions.getD 1 0) (toIntp itemsize) (toIntp itemsize) pout s1 with
      | none => none
      | some s2 =>
        gendot_outer code rfuel dimensions steps data tmp fuel (wrapInt (j + 1))
          (px + steps.getD 0 0) (py + steps.getD 1 0) (pout + steps.getD 2 0) s2
    else some s

/-- The function `gendot_loop`.  `malloc` is the allocator's answer to a request
of the given size; `data` is the record the closure pointer refers to. -/
def gendot_loop {β : Type} (code : Int → LoopFn β) (malloc : Nat → Option Int) (fuel : Nat)
    (args : List Int) (dimensions steps : List Int) (data : gendot_data_t)
    (s : State β) : Option (State β) :=
  if dimensions.getD 1 0 = 0 then some s
  else
    let size := scratch_size dimensions data
    match malloc size with
    | none => some { s with trace := s.trace ++ [Event.malloc size none] }
    | some tmp =>
      let s0 : State β := { s with trace := s.trace ++ [Event.malloc size (some tmp)] }
      match gendot_outer code fuel dimensions steps data tmp fuel 0
          (args.getD 0 0) (args.getD 1 0) (args.getD 2 0) s0 with
      | none => none
      | some s1 => some { s1 with trace := s1.trace ++ [Event.free tmp] }

/-! ## Elementwise binary loop functions -/

/-- The `sz` cells of the element at `p`. -/
def readElem {β : Type} (m : Mem β) (p : Int) (sz : Nat) : List β :=
  (List.range sz).map (fun (i : Nat) => m (p + (i : Int)))

/-- Store the cells of `v` at `p`. -/
def writeElem {β : Type} (m : Mem β) (p : Int) (v : List β) : Mem β :=
  fun a => if p ≤ a ∧ a < p + (v.length : Int) then v.getD (a - p).toNat (m a) else m a

/-- The strided inner loop of a binary ufunc on `sz`-cell elements:
`for (i = 0; i < n; i++) out[i] = op(in1[i], in2[i])`, with
`in1[i]` at `args[0] + i*steps[0]`, `in2[i]` at `args[1] + i*steps[1]` and
`out[i]` at `args[2] + i*steps[2]`, `n = dimensions[0]`. -/
def elementwise {β : Type} (op : List β → List β → List β) (sz : Nat) : LoopFn β :=
  fun args dimensions steps _ m =>
    (List.range (dimensions.getD 0 0).toNat).foldl
      (fun (m : Mem β) (i : Nat) =>
        writeElem m (args.getD 2 0 + (i : Int) * steps.getD 2 0)
          (op (readElem m (args.getD 0 0 + (i : Int) * steps.getD 0 0) sz)
              (readElem m (args.getD 1 0 + (i : Int) * steps.getD 1 0) sz)))
      m

/-! ## The builder `gendot` (lines 149-283): layout and fill phase -/

/-- The value of `sizeof(void *)`, also the size of a function pointer and of `npy_intp`. -/
def sizeof_ptr : Nat := 8

/-- The value of `sizeof(gendot_data_t)`: five pointer-sized fields, no padding. -/
def sizeof_gendot_data_t : Nat := 5 * sizeof_ptr

/-- Byte offsets of the fields of `gendot_data_t` (lines 15-21). -/
def offsetof_prodfunc_loop : Nat := 0

/-- Offset of `prodfunc_loop_data`. -/
def offsetof_prodfunc_loop_data : Nat := sizeof_ptr

/-- Offset of `sumfunc_loop`. -/
def offsetof_sumfunc_loop : Nat := 2 * sizeof_ptr

/-- Offset of `sumfunc_loop_data`. -/
def offsetof_sumfunc_loop_data : Nat := 3 * sizeof_ptr

/-- Offset of `sumfunc_loop_itemsize`. -/
def offsetof_sumfunc_loop_itemsize : Nat := 4 * sizeof_ptr

/-- The record `func_index_pair` (lines 30-33): two `uint8_t`. -/
structure func_index_pair where
  prod_index : Fin 256
  sum_index : Fin 256
deriving DecidableEq, Repr

/-- The data of a NumPy array seen as a one-dimensional C array: its elements, whose
number fits `npy_intp`. -/
structure NpyArray (α : Type) where
  data : List α
  size_ok : data.length < 2 ^ 63

/-- The fields of a `PyUFuncObject` that the builder reads: the table of loop
functions and the table of their closure pointers. -/
structure PyUFuncObject where
  functions : List Int
  data : List Int
deriving DecidableEq, Repr

/-- Read of `arr[i]` for a C array; a read outside the array yields `dflt`. -/
def readArr {α : Type} (arr : List α) (i : Int) (dflt : α) : α :=
  if 0 ≤ i then arr.getD i.toNat dflt else dflt

/-- Values stored in the descriptor block. -/
inductive Val where
  | fn (f : Int)
  | ptr (p : Int)
  | intp (v : Int)
  | byte (b : Nat)
deriving DecidableEq, Repr

/-- One store into the block: address, size in bytes, value. -/
structure Store where
  addr : Int
  size : Nat
  val : Val
deriving DecidableEq, Repr

/-- Contents of the block: the value last stored at each address, and the log of the
stores, oldest first. -/
structure Heap where
  cell : Int → Option Val
  stores : List Store

/-- The freshly allocated block: nothing stored yet. -/
def Heap.empty : Heap := { cell := fun _ => none, stores := [] }

/-- Store `v`, of `size` bytes, at `addr`. -/
def Heap.store (h : Heap) (addr : Int) (size : Nat) (v : Val) : Heap :=
  { cell := fun a => if a = addr then some v else h.cell a
    stores := h.stores ++ [{ addr := addr, size := size, val := v }] }

/-- The `strlen` of a C string given by its characters before the terminator. -/
def strlen (s : List Nat) : Nat := toSizeT (s.length : Int)

/-- Line 195: `nloops * sizeof(PyUFuncGenericFunction *)`. -/
def sizeof_gendot_funcs (nloops : Int) : Nat := mulSizeT (toSizeT nloops) sizeof_ptr

/-- Line 196: `nloops * sizeof(void *)`. -/
def sizeof_gendot_data_ptrs (nloops : Int) : Nat := mulSizeT (toSizeT nloops) sizeof_ptr

/-- Line 197: `nloops * sizeof(gendot_data_t)`. -/
def sizeof_gendot_data (nloops : Int) : Nat := mulSizeT (toSizeT nloops) sizeof_gendot_data_t

/-- Line 198: `nloops * 3*sizeof(uint8_t)`, that is `(nloops * 3) * 1` with the first
product in `npy_intp` and the second in `size_t`. -/
def sizeof_gendot_typecodes (nloops : Int) : Nat := mulSizeT (toSizeT (toIntp (nloops * 3))) 1

/-- Lines 202-204: the size of the block, a sum in `size_t`. -/
def total_memory_required (nloops : Int) (name doc : List Nat) : Nat :=
  addSizeT (addSizeT (addSizeT (addSizeT (addSizeT (sizeof_gendot_funcs nloops)
    (sizeof_gendot_data_ptrs nloops)) (sizeof_gendot_data nloops))
    (sizeof_gendot_typecodes nloops)) (addSizeT (strlen name) 1)) (addSizeT (strlen doc) 1)

/-- Line 215: the dispatch table starts the block. -/
def gendot_funcs (mem : Int) : Int := mem

/-- Lines 216-217: the table of closure pointers.  Addresses are integers: the sizes
added are the `size_t` values, the pointer sums of lines 216-235 are exact, and they
are the machine's pointers as long as they stay below `2^64`, which they do inside
an allocated block whose size has not wrapped. -/
def gendot_data_ptrs (mem nloops : Int) : Int := mem + (sizeof_gendot_funcs nloops : Int)

/-- Lines 218-220: the array of records. -/
def gendot_data (mem nloops : Int) : Int :=
  mem + (sizeof_gendot_funcs nloops : Int) + (sizeof_gendot_data_ptrs nloops : Int)

/-- Lines 221-224: the type table. -/
def gendot_typecodes (mem nloops : Int) : Int :=
  mem + (sizeof_gendot_funcs nloops : Int) + (sizeof_gendot_data_ptrs nloops : Int)
    + (sizeof_gendot_data nloops : Int)

/-- Lines 225-229: the copy of the name. -/
def gendot_name (mem nloops : Int) : Int :=
  mem + (sizeof_gendot_funcs nloops : Int) + (sizeof_gendot_data_ptrs nloops : Int)
    + (sizeof_gendot_data nloops : Int) + (sizeof_gendot_typecodes nloops : Int)

/-- Lines 230-235: the copy of the documentation string. -/
def gendot_doc (mem nloops : Int) (name : List Nat) : Int :=
  mem + (sizeof_gendot_funcs nloops : Int) + (sizeof_gendot_data_ptrs nloops : Int)
    + (sizeof_gendot_data nloops : Int) + (sizeof_gendot_typecodes nloops : Int)
    + (addSizeT (strlen name) 1 : Int)

/-- The six regions of the block, in the order of lines 215-235: start address and
size in bytes of the dispatch table, the closure-pointer table, the record array, the
type table, the name copy and the documentation copy. -/
def block_regions (mem nloops : Int) (name doc : List Nat) : List (Int × Nat) :=
  [(gendot_funcs mem, sizeof_gendot_funcs nloops),
   (gendot_data_ptrs mem nloops, sizeof_gendot_data_ptrs nloops),
   (gendot_data mem nloops, sizeof_gendot_data nloops),
   (gendot_typecodes mem nloops, sizeof_gendot_typecodes nloops),
   (gendot_name mem nloops, addSizeT (strlen name) 1),
   (gendot_doc mem nloops name, addSizeT (strlen doc) 1)]

/-- The `memcpy(dest, src, n)` into the block, byte by byte; `src` is the C array read. -/
def storeBytes (h : Heap) (dest : Int) (src : List Nat) (n : Nat) : Heap :=
  (List.range n).foldl
    (fun (h : Heap) (k : Nat) => h.store (dest + (k : Int)) 1 (Val.byte (src.getD k 0))) h

/-- The `strcpy(dest, src)` into the block: the characters of `src`, then the
terminator. -/
def strcpy (h : Heap) (dest : Int) (src : List Nat) : Heap :=
  storeBytes h dest (src ++ [0]) (src.length + 1)

/-- Lines 243-246: the three copies that precede the loop. -/
def fill_copies (mem nloops : Int) (name doc typecodes : List Nat) (h : Heap) : Heap :=
  strcpy
    (strcpy
      (storeBytes h (gendot_typecodes mem nloops) typecodes (sizeof_gendot_typecodes nloops))
      (gendot_name mem nloops) name)
    (gendot_doc mem nloops name) doc

/-- Lines 249-259: the body of the fill loop at index `i`; `loop_addr` is
`&gendot_loop`. -/
def fill_body (loop_addr : Int) (prodfunc sumfunc : PyUFuncObject)
    (func_index_pairs : List func_index_pair) (gendot_itemsizes : List Int)
    (mem nloops : Int) (i : Int) (h : Heap) : Heap :=
  let h1 := h.store (gendot_funcs mem + i * (sizeof_ptr : Int)) sizeof_ptr (Val.fn loop_addr)
  let prod_index : Int := ((readArr func_index_pairs i ⟨0, 0⟩).prod_index.val : Int)
  let sum_index : Int := ((readArr func_index_pairs i ⟨0, 0⟩).sum_index.val : Int)
  let rec_i : Int := gendot_data mem nloops + i * (sizeof_gendot_data_t : Int)
  let h2 := h1.store (rec_i + (offsetof_prodfunc_loop : Int)) sizeof_ptr
    (Val.fn (readArr prodfunc.functions prod_index 0))
  let h3 := h2.store (rec_i + (offsetof_prodfunc_loop_data : Int)) sizeof_ptr
    (Val.ptr (readArr prodfunc.data prod_index 0))
  let h4 := h3.store (rec_i + (offsetof_sumfunc_loop : Int)) sizeof_ptr
    (Val.fn (readArr sumfunc.functions sum_index 0))
  let h5 := h4.store (rec_i + (offsetof_sumfunc_loop_data : Int)) sizeof_ptr
    (Val.ptr (readArr sumfunc.data sum_index 0))
  let h6 := h5.store (rec_i + (offsetof_sumfunc_loop_itemsize : Int)) sizeof_ptr
    (Val.intp (readArr gendot_itemsizes i 0))
  h6.store (gendot_data_ptrs mem nloops + i * (sizeof_ptr : Int)) sizeof_ptr (Val.ptr rec_i)

/-- The `for (int i = 0; i < nloops; ++i)` loop of lines 248-260, entered with the
current value of `i`. -/
def fill_loop (loop_addr : Int) (prodfunc sumfunc : PyUFuncObject)
    (func_index_pairs : List func_index_pair) (gendot_itemsizes : List Int)
    (mem nloops : Int) : Nat → Int → Heap → Option Heap
  | 0, i, h => if i < nloops then none else some h
  | fuel + 1, i, h =>
    if i < nloops then
      fill_loop loop_addr prodfunc sumfunc func_index_pairs gendot_itemsizes mem nloops fuel
        (wrapInt (i + 1))
        (fill_body loop_addr prodfunc sumfunc func_index_pairs gendot_itemsizes mem nloops i h)
    else some h

/-- Lines 179-182 and 243-260: the fill phase of `gendot` on the block allocated at
`mem`. -/
def gendot_fill (loop_addr : Int) (fuel : Nat) (name doc : List Nat)
    (prodfunc sumfunc : PyUFuncObject) (loop_indices : NpyArray func_index_pair)
    (typecodes : NpyArray Nat) (itemsizes : NpyArray Int) (mem : Int) : Option Heap :=
  let nloops : Int := (loop_indices.data.length : Int)
  fill_loop loop_addr prodfunc sumfunc loop_indices.data itemsizes.data mem nloops fuel 0
    (fill_copies mem nloops name doc typecodes.data Heap.empty)

/-- The loop of lines 248-260 run for at most `steps` iterations from the current value
of `i`: the value of `i` and the block that are reached.  The loop has returned when
`i < nloops` fails in that state. -/
def fill_steps (loop_addr : Int) (prodfunc sumfunc : PyUFuncObject)
    (func_index_pairs : List func_index_pair) (gendot_itemsizes : List Int)
    (mem nloops : Int) : Nat → Int → Heap → Int × Heap
  | 0, i, h => (i, h)
  | steps + 1, i, h =>
    if i < nloops then
      fill_steps loop_addr prodfunc sumfunc func_index_pairs gendot_itemsizes mem nloops steps
        (wrapInt (i + 1))
        (fill_body loop_addr prodfunc sumfunc func_index_pairs gendot_itemsizes mem nloops i h)
    else (i, h)

/-- Lines 179-182 and 243-260: the fill phase of `gendot` on the block allocated at
`mem`, run for at most `steps` iterations of its loop. -/
def gendot_fill_steps (loop_addr : Int) (steps : Nat) (name doc : List Nat)
    (prodfunc sumfunc : PyUFuncObject) (loop_indices : NpyArray func_index_pair)
    (typecodes : NpyArray Nat) (itemsizes : NpyArray Int) (mem : Int) : Int × Heap :=
  let nloops : Int := (loop_indices.data.length : Int)
  fill_steps loop_addr prodfunc sumfunc loop_indices.data itemsizes.data mem nloops steps 0
    (fill_copies mem nloops name doc typecodes.data Heap.empty)

/-! ## The builder `gendot`: allocation, registration, ownership (lines 195-283) -/

/-- The constant `PyUFunc_None` of the NumPy headers. -/
def PyUFunc_None : Int := -1

/-- The arguments of the call of `PyUFunc_FromFuncAndDataAndSignature`
(lines 270-275); pointers are addresses. -/
structure Registration where
  func : Int
  data : Int
  types : Int
  ntypes : Int
  nin : Int
  nout : Int
  identity : Int
  name : Int
  doc : Int
  unused : Int
  signature : String
deriving DecidableEq, Repr

/-- Actions of the builder on the allocator, the runtime and the new operator, in the
order of the source: `PyArray_malloc`, the registration call with its answer (`none`
is `NULL`), `PyArray_free`, and the assignment `gufunc->ptr = p`. -/
inductive BuilderEvent where
  | malloc (size : Nat) (result : Option Int)
  | register (r : Registration) (result : Option Int)
  | free (p : Int)
  | set_ptr (gufunc : Int) (p : Int)
deriving DecidableEq, Repr

/-- What `gendot` returns: `PyErr_NoMemory()`, `NULL` after a failed registration, or
the new operator object. -/
inductive GendotResult where
  | no_memory
  | null
  | gufunc (obj : Int)
deriving DecidableEq, Repr

/-- Outcome of a call of `gendot`: the value returned, the contents of the block and
the actions performed. -/
structure Outcome where
  result : GendotResult
  heap : Heap
  events : List BuilderEvent

/-- Lines 266-275: the arguments `gendot` passes to the registration call for the block
at `mem`; `name` and `doc` are the pointers received from the caller, `nloops` is
converted to `int`. -/
def gendot_registration (mem nloops : Int) (name doc : Int) : Registration :=
  { func := gendot_funcs mem
    data := gendot_data_ptrs mem nloops
    types := gendot_typecodes mem nloops
    ntypes := wrapInt nloops
    nin := 2
    nout := 1
    identity := PyUFunc_None
    name := name
    doc := doc
    unused := 0
    signature := "(i),(i)->()" }

/-- The function `gendot` after its arguments have been parsed (lines 179-283).
`PyArray_malloc` is the allocator's answer to a request of the given size,
`FromFuncAndDataAndSignature` the runtime's answer to a registration (the address of
the new operator object, or `none` for `NULL`); `name` and `doc` are the pointers to
the caller's strings, `name_chars` and `doc_chars` the characters found there. -/
def gendot (loop_addr : Int) (PyArray_malloc : Nat → Option Int)
    (FromFuncAndDataAndSignature : Registration → Option Int) (fuel : Nat)
    (name doc : Int) (name_chars doc_chars : List Nat) (prodfunc sumfunc : PyUFuncObject)
    (loop_indices : NpyArray func_index_pair) (typecodes : NpyArray Nat)
    (itemsizes : NpyArray Int) : Option Outcome :=
  let nloops : Int := (loop_indices.data.length : Int)
  let total := total_memory_required nloops name_chars doc_chars
  match PyArray_malloc total with
  | none =>
    some { result := GendotResult.no_memory, heap := Heap.empty,
           events := [BuilderEvent.malloc total none] }
  | some mem =>
    match gendot_fill loop_addr fuel name_chars doc_chars prodfunc sumfunc loop_indices
        typecodes itemsizes mem with
    | none => none
    | some h =>
      let reg := gendot_registration mem nloops name doc
      match FromFuncAndDataAndSignature reg with
      | none =>
        some { result := GendotResult.null, heap := h,
               events := [BuilderEvent.malloc total (some mem), BuilderEvent.register reg none,
                          BuilderEvent.free mem] }
      | some obj =>
        some { result := GendotResult.gufunc obj, heap := h,
               events := [BuilderEvent.malloc total (some mem),
                          BuilderEvent.register reg (some obj),
                          BuilderEvent.set_ptr obj mem] }

/-- Ownership of the block at `p`: the number of times the builder has released it. -/
def releases (events : List BuilderEvent) (p : Int) : Nat :=
  events.countP (fun e => decide (e = BuilderEvent.free p))

/-- Ownership of the block at `p`: the operator objects whose `ptr` field holds it. -/
def owners (events : List BuilderEvent) (p : Int) : List Int :=
  events.filterMap (fun e =>
    match e with
    | BuilderEvent.set_ptr g q => if q = p then some g else none
    | _ => none)

/-- The registration calls made, in order. -/
def registrations (events : List BuilderEvent) : List Registration :=
  events.filterMap (fun e =>
    match e with
    | BuilderEvent.register r _ => some r
    | _ => none)

/-- The number of stores of the log that write the byte at address `a`. -/
def writes_at (stores : List Store) (a : Int) : Nat :=
  stores.countP (fun st => decide (st.addr ≤ a ∧ a < st.addr + (st.size : Int)))

/-! ## Specification values -/

/-- Record `i` of the block at `mem` (for `nloops` overloads) holds the loop function
and closure pointer of `prodfunc` at index `sel.prod_index`, those of `sumfunc` at
index `sel.sum_index`, and the item size `itemsize`. -/
def record_filled (h : Heap) (mem nloops : Int) (prodfunc sumfunc : PyUFuncObject)
    (i : Nat) (sel : func_index_pair) (itemsize : Int) : Prop :=
  h.cell (gendot_data mem nloops + (i : Int) * (sizeof_gendot_data_t : Int)
      + (offsetof_prodfunc_loop : Int))
    = some (Val.fn (prodfunc.functions.getD sel.prod_index.val 0)) ∧
  h.cell (gendot_data mem nloops + (i : Int) * (sizeof_gendot_data_t : Int)
      + (offsetof_prodfunc_loop_data : Int))
    = some (Val.ptr (prodfunc.data.getD sel.prod_index.val 0)) ∧
  h.cell (gendot_data mem nloops + (i : Int) * (sizeof_gendot_data_t : Int)
      + (offsetof_sumfunc_loop : Int))
    = some (Val.fn (sumfunc.functions.getD sel.sum_index.val 0)) ∧
  h.cell (gendot_data mem nloops + (i : Int) * (sizeof_gendot_data_t : Int)
      + (offsetof_sumfunc_loop_data : Int))
    = some (Val.ptr (sumfunc.data.getD sel.sum_index.val 0)) ∧
  h.cell (gendot_data mem nloops + (i : Int) * (sizeof_gendot_data_t : Int)
      + (offsetof_sumfunc_loop_itemsize : Int))
    = some (Val.intp itemsize)


/-- Specification value for one outer entry: the left fold of `r` over the
elementwise combination `c (x i) (y i)`, `i = 0 .. innerLen-1`, of the two inner
sequences that start at `px` and `py` with inner strides `sx` and `sy`. -/
def specDot {β : Type} (c r : List β → List β → List β) (sz : Nat) (m : Mem β)
    (px py sx sy : Int) (innerLen : Nat) : List β :=
  List.foldl r (c (readElem m px sz) (readElem m py sz))
    ((List.range' 1 (innerLen - 1)).map (fun (i : Nat) =>
      c (readElem m (px + (i : Int) * sx) sz) (readElem m (py + (i : Int) * sy) sz)))

/-- Entry `i` of the dispatch table of the block at `mem` is the dispatcher
`loop_addr`, and entry `i` of the closure-pointer table is the address of record
`i`. -/
def tables_filled (h : Heap) (mem nloops loop_addr : Int) (i : Nat) : Prop :=
  h.cell (gendot_funcs mem + (i : Int) * (sizeof_ptr : Int)) = some (Val.fn loop_addr) ∧
  h.cell (gendot_data_ptrs mem nloops + (i : Int) * (sizeof_ptr : Int))
    = some (Val.ptr (gendot_data mem nloops + (i : Int) * (sizeof_gendot_data_t : Int)))

/-- Indicator of the byte range `[lo, hi)`: 1 when `a` is in it, 0 otherwise. -/
def byte_in (lo hi a : Int) : Nat := if lo ≤ a ∧ a < hi then 1 else 0

/-! ## Concrete instances -/

/-- Multiplication of one-cell integer elements. -/
def mulOp : List Int → List Int → List Int := fun a b => [a.headI * b.headI]

/-- Addition of one-cell integer elements. -/
def addOp : List Int → List Int → List Int := fun a b => [a.headI + b.headI]

/-- Subtraction of one-cell integer elements. -/
def subOp : List Int → List Int → List Int := fun a b => [a.headI - b.headI]

/-- The integer held by a one-cell element. -/
def decInt : List Int → Int := fun a => a.headI

/-- Code memory of the examples: the multiplication loop at address 7, the addition
loop at address 8, the subtraction loop everywhere else. -/
def exCode : Int → LoopFn Int := fun p =>
  if p = 7 then elementwise mulOp 1 else if p = 8 then elementwise addOp 1
  else elementwise subOp 1

/-- Closure record of the examples: multiply, then add, on one-cell elements. -/
def exData : gendot_data_t :=
  { prodfunc_loop := 7, prodfunc_loop_data := 0, sumfunc_loop := 8,
    sumfunc_loop_data := 0, sumfunc_loop_itemsize := 1 }

/-- An allocator that answers every request with the block at address 1000. -/
def exMalloc : Nat → Option Int := fun _ => some 1000

/-- An allocator that fails. -/
def exNoMem : Nat → Option Int := fun _ => none

/-- Memory holding `x = [1,2,3]` at address 0 and `y = [4,5,6]` at address 10. -/
def exMem1 : Mem Int := writeElem (writeElem (fun _ => 0) 0 [1, 2, 3]) 10 [4, 5, 6]

/-- Memory holding the batch `x = [[1,1],[2,0]]` at address 0 and
`y = [[1,1],[0,2]]` at address 10. -/
def exMem2 : Mem Int := writeElem (writeElem (fun _ => 0) 0 [1, 1, 2, 0]) 10 [1, 1, 0, 2]

/-- Memory holding `[10, 3, 2]` at address 0. -/
def exMem4 : Mem Int := writeElem (fun _ => 0) 0 [10, 3, 2]

/-- Example combine operator object: three loops and their closure pointers. -/
def exProd : PyUFuncObject := { functions := [700, 701, 702], data := [70, 71, 72] }

/-- Example reduce operator object: two loops and their closure pointers. -/
def exSum : PyUFuncObject := { functions := [800, 801], data := [80, 81] }

/-- Example selectors for two overloads. -/
def exIdx : NpyArray func_index_pair := ⟨[⟨2, 0⟩, ⟨0, 1⟩], by decide⟩

/-- Example type codes for two overloads. -/
def exTypes : NpyArray Nat := ⟨[7, 7, 7, 12, 12, 12], by decide⟩

/-- Example item sizes for two overloads. -/
def exSizes : NpyArray Int := ⟨[8, 4], by decide⟩

/-- Selectors for `2^31` overloads. -/
def exIdxHuge : NpyArray func_index_pair :=
  ⟨List.replicate (2 ^ 31) ⟨0, 0⟩, by rw [List.length_replicate]; norm_num⟩

/-- Type codes for `2^31` overloads. -/
def exTypesHuge : NpyArray Nat :=
  ⟨List.replicate (3 * 2 ^ 31) 7, by rw [List.length_replicate]; norm_num⟩

/-- Item sizes for `2^31` overloads. -/
def exSizesHuge : NpyArray Int :=
  ⟨List.replicate (2 ^ 31) 8, by rw [List.length_replicate]; norm_num⟩

/-- An allocator for the builder that answers every request with the block at 5000. -/
def exAlloc : Nat → Option Int := fun _ => some 5000

/-- A runtime that accepts every registration and creates the operator at 7000. -/
def exRuntime : Registration → Option Int := fun _ => some 7000

/-- A runtime that refuses every registration. -/
def exRuntimeFail : Registration → Option Int := fun _ => none

/-- Closure record with a reduction item size of 8 bytes. -/
def exData8 : gendot_data_t :=
  { prodfunc_loop := 7, prodfunc_loop_data := 0, sumfunc_loop := 8,
    sumfunc_loop_data := 0, sumfunc_loop_itemsize := 8 }

/-- A string of `2^63 - 1` characters. -/
def exNameHuge : List Nat := List.replicate (2 ^ 63 - 1) 65

/-- An array without elements. -/
def exEmpty (α : Type) : NpyArray α := ⟨[], by simp⟩

/-! ## Machine integer and memory lemmas -/

theorem wrapInt_of_range (x : Int) (h1 : -2 ^ 31 ≤ x) (h2 : x < 2 ^ 31) : wrapInt x = x := by
  unfold wrapInt; omega

theorem wrapInt_range (x : Int) : -2 ^ 31 ≤ wrapInt x ∧ wrapInt x < 2 ^ 31 := by
  unfold wrapInt; omega

theorem toSizeT_of_range (x : Int) (h1 : 0 ≤ x) (h2 : x < 2 ^ 64) : toSizeT x = x.toNat := by
  unfold toSizeT; rw [Int.emod_eq_of_lt h1 h2]

theorem toSizeT_natCast (n : Nat) (h : n < 2 ^ 64) : toSizeT (n : Int) = n := by
  unfold toSizeT; omega

theorem toIntp_of_range (x : Int) (h1 : -2 ^ 63 ≤ x) (h2 : x < 2 ^ 63) : toIntp x = x := by
  unfold toIntp; omega

theorem readElem_length {β : Type} (m : Mem β) (p : Int) (sz : Nat) :
    (readElem m p sz).length = sz := by
  simp [readElem]

theorem readElem_congr {β : Type} (m m2 : Mem β) (p : Int) (sz : Nat)
    (h : ∀ a, p ≤ a → a < p + (sz : Int) → m a = m2 a) :
    readElem m p sz = readElem m2 p sz := by
  unfold readElem
  apply List.map_congr_left
  intro i hi
  have hi2 := List.mem_range.1 hi
  apply h <;> omega

theorem writeElem_outside {β : Type} (m : Mem β) (p : Int) (v : List β) (a : Int)
    (h : a < p ∨ p + (v.length : Int) ≤ a) : writeElem m p v a = m a := by
  unfold writeElem
  rw [if_neg]
  omega

theorem readElem_writeElem_same {β : Type} (m : Mem β) (p : Int) (v : List β) :
    readElem (writeElem m p v) p v.length = v := by
  apply List.ext_getElem
  · simp [readElem]
  · intro i h1 h2
    simp only [readElem, List.getElem_map, List.getElem_range, writeElem]
    rw [if_pos (by omega)]
    have : (p + (i : Int) - p).toNat = i := by omega
    rw [this]
    simp [List.getElem?_eq_getElem h2]

theorem readElem_writeElem_of_length {β : Type} (m : Mem β) (p : Int) (v : List β) (sz : Nat)
    (h : v.length = sz) : readElem (writeElem m p v) p sz = v := by
  subst h
  exact readElem_writeElem_same m p v

theorem memcpy_outside {β : Type} (m : Mem β) (d s : Int) (n : Nat) (a : Int)
    (h : a < d ∨ d + (n : Int) ≤ a) : memcpy d s n m a = m a := by
  unfold memcpy
  rw [if_neg]
  omega

theorem readElem_memcpy {β : Type} (m : Mem β) (d s : Int) (n : Nat) :
    readElem (memcpy d s n m) d n = readElem m s n := by
  unfold readElem
  apply List.map_congr_left
  intro i hi
  have hi2 := List.mem_range.1 hi
  unfold memcpy
  rw [if_pos (by omega)]
  congr 1
  omega

theorem elementwise_one {β : Type} (op : List β → List β → List β) (sz : Nat)
    (a b c : Int) (st : List Int) (ld : Int) (m : Mem β) :
    elementwise op sz [a, b, c] [1] st ld m
      = writeElem m c (op (readElem m a sz) (readElem m b sz)) := by
  simp [elementwise, List.range_succ]

/-! ## `reduce`: loop invariant, divergence, fold -/

theorem reduce_loop_fold {β : Type} (code : Int → LoopFn β) (f ld : Int)
    (op : List β → List β → List β) (sz : Nat) (hcode : code f = elementwise op sz)
    (hop : ∀ a b, a.length = sz → b.length = sz → (op a b).length = sz)
    (data stride result : Int) (N : Nat) (hN : (N : Int) < 2 ^ 31) (m0 : Mem β)
    (hsep : ∀ k : Nat, k < N →
      result + (sz : Int) ≤ data + (k : Int) * stride ∨
        data + (k : Int) * stride + (sz : Int) ≤ result) :
    ∀ (r k fuel : Nat) (s : State β), r ≤ fuel → k + r = N →
      (∀ a, (a < result ∨ result + (sz : Int) ≤ a) → s.mem a = m0 a) →
      ∃ s2, reduce_loop code f ld N stride result fuel k (data + (k : Int) * stride) s = some s2 ∧
        (∀ a, (a < result ∨ result + (sz : Int) ≤ a) → s2.mem a = m0 a) ∧
        readElem s2.mem result sz =
          (List.range' k r).foldl
            (fun acc (i : Nat) => op acc (readElem m0 (data + (i : Int) * stride) sz))
            (readElem s.mem result sz) ∧
        s2.trace = s.trace ++ (List.range' k r).map
          (fun (i : Nat) => Event.call f [result, data + (i : Int) * stride, result] [1]
            [stride, stride, stride] ld) := by
  intro r
  induction r with
  | zero =>
    intro k fuel s _ hk hfr
    have hkN : ¬ ((k : Int) < (N : Int)) := by omega
    refine ⟨s, ?_, hfr, by simp, by simp⟩
    cases fuel <;> simp [reduce_loop, hkN]
  | succ r ih =>
    intro k fuel s hfuel hk hfr
    obtain ⟨fuel, rfl⟩ : ∃ g, fuel = g + 1 := ⟨fuel - 1, by omega⟩
    have hkN : (k : Int) < (N : Int) := by omega
    have hw : wrapInt ((k : Int) + 1) = ((k + 1 : Nat) : Int) := by
      rw [wrapInt_of_range] <;> push_cast <;> omega
    have hd : data + (k : Int) * stride + stride = data + ((k + 1 : Nat) : Int) * stride := by
      push_cast; ring
    have hdk := hsep k (by omega)
    have hlen : (op (readElem s.mem result sz)
        (readElem s.mem (data + (k : Int) * stride) sz)).length = sz :=
      hop _ _ (readElem_length _ _ _) (readElem_length _ _ _)
    have hx : readElem s.mem (data + (k : Int) * stride) sz
        = readElem m0 (data + (k : Int) * stride) sz := by
      apply readElem_congr
      intro a h1 h2
      apply hfr
      omega
    obtain ⟨s2, h1, h2, h3, h4⟩ := ih (k + 1) fuel
      (invoke code f [result, data + (k : Int) * stride, result] [1] [stride, stride, stride] ld s)
      (by omega) (by omega)
      (by
        intro a ha
        simp only [invoke, hcode, elementwise_one]
        rw [writeElem_outside _ _ _ _ (by rw [hlen]; exact ha)]
        exact hfr a ha)
    refine ⟨s2, ?_, h2, ?_, ?_⟩
    · rw [reduce_loop, if_pos hkN, hw, hd]
      exact h1
    · have e : readElem (invoke code f [result, data + (k : Int) * stride, result] [1]
          [stride, stride, stride] ld s).mem result sz
          = op (readElem s.mem result sz) (readElem m0 (data + (k : Int) * stride) sz) := by
        simp only [invoke, hcode, elementwise_one]
        rw [← hx]
        exact readElem_writeElem_of_length _ _ _ _ hlen
      rw [h3, e, List.range'_succ, List.foldl_cons]
    · rw [h4, List.range'_succ, List.map_cons]
      simp [invoke]

theorem reduce_loop_diverges {β : Type} (code : Int → LoopFn β) (f ld n stride result : Int)
    (hn : 2 ^ 31 ≤ n) :
    ∀ (fuel : Nat) (k data : Int) (s : State β), k < 2 ^ 31 →
      reduce_loop code f ld n stride result fuel k data s = none := by
  intro fuel
  induction fuel with
  | zero =>
    intro k data s hk
    have : k < n := by omega
    simp [reduce_loop, this]
  | succ fuel ih =>
    intro k data s hk
    have : k < n := by omega
    rw [reduce_loop, if_pos this]
    exact ih _ _ _ (wrapInt_range _).2

theorem reduce_diverges {β : Type} (code : Int → LoopFn β) (fuel : Nat)
    (f ld data n stride itemsize result : Int) (s : State β) (hn : 2 ^ 31 ≤ n) :
    reduce code fuel f ld data n stride itemsize result s = none := by
  have h1 : ¬ n ≤ 0 := by omega
  have h2 : ¬ n = 1 := by omega
  simp only [reduce, if_neg h1, if_neg h2]
  exact reduce_loop_diverges code f ld n stride result hn fuel 1 _ _ (by norm_num)

/-- For `1 ≤ n ≤ INT_MAX`, enough fuel, an elementwise reduce operator and a result
buffer that does not overlap the sequence, `reduce` returns, the result buffer holds
the left fold of the sequence, nothing else is written, and the operator has been
called once for each of the elements `1 .. n-1`, in order. -/
theorem reduce_fold {β : Type} (code : Int → LoopFn β) (f ld : Int)
    (op : List β → List β → List β) (sz : Nat) (hcode : code f = elementwise op sz)
    (hop : ∀ a b, a.length = sz → b.length = sz → (op a b).length = sz)
    (hsz : (sz : Int) < 2 ^ 64)
    (data stride result : Int) (N : Nat) (h1 : 1 ≤ N) (hN : (N : Int) < 2 ^ 31)
    (hsep : ∀ k : Nat, k < N →
      result + (sz : Int) ≤ data + (k : Int) * stride ∨
        data + (k : Int) * stride + (sz : Int) ≤ result)
    (fuel : Nat) (hfuel : N ≤ fuel + 1) (s : State β) :
    ∃ s2, reduce code fuel f ld data (N : Int) stride (sz : Int) result s = some s2 ∧
      readElem s2.mem result sz =
        List.foldl op (readElem s.mem data sz)
          ((List.range' 1 (N - 1)).map
            (fun (k : Nat) => readElem s.mem (data + (k : Int) * stride) sz)) ∧
      (∀ a, (a < result ∨ result + (sz : Int) ≤ a) → s2.mem a = s.mem a) ∧
      s2.trace = s.trace ++ (List.range' 1 (N - 1)).map
        (fun (k : Nat) => Event.call f [result, data + (k : Int) * stride, result] [1]
          [stride, stride, stride] ld) := by
  have hn0 : ¬ ((N : Int) ≤ 0) := by omega
  have hts : toSizeT (sz : Int) = sz := toSizeT_natCast sz (by exact_mod_cast hsz)
  have hd0 := hsep 0 (by omega)
  simp only [Nat.cast_zero, zero_mul, add_zero] at hd0
  have hcopy : readElem (memcpy result data sz s.mem) result sz = readElem s.mem data sz :=
    readElem_memcpy _ _ _ _
  by_cases hone : N = 1
  · subst hone
    refine ⟨{ s with mem := memcpy result data sz s.mem }, ?_, ?_, ?_, ?_⟩
    · simp [reduce, hts]
    · simpa using hcopy
    · intro a ha
      exact memcpy_outside _ _ _ _ _ ha
    · simp
  · have hn1 : ¬ ((N : Int) = 1) := by omega
    obtain ⟨s2, e1, e2, e3, e4⟩ := reduce_loop_fold code f ld op sz hcode hop data stride result N
      hN s.mem hsep (N - 1) 1 fuel { s with mem := memcpy result data sz s.mem }
      (by omega) (by omega) (fun a ha => memcpy_outside _ _ _ _ _ ha)
    refine ⟨s2, ?_, ?_, e2, e4⟩
    · simp only [reduce, if_neg hn0, if_neg hn1, hts]
      simpa using e1
    · rw [e3, List.foldl_map]
      simp only [hcopy]

/-! ## Elementwise loops -/

theorem elementwise_upto {β : Type} (op : List β → List β → List β) (sz : Nat)
    (hop : ∀ a b, a.length = sz → b.length = sz → (op a b).length = sz)
    (in1 in2 out s1 s2 os : Int) (n : Nat) (m : Mem β)
    (hout : ∀ i j : Nat, i < n → j < n → i ≠ j →
      out + (i : Int) * os + (sz : Int) ≤ out + (j : Int) * os ∨
        out + (j : Int) * os + (sz : Int) ≤ out + (i : Int) * os)
    (hin1 : ∀ i j : Nat, i < n → j < n →
      out + (i : Int) * os + (sz : Int) ≤ in1 + (j : Int) * s1 ∨
        in1 + (j : Int) * s1 + (sz : Int) ≤ out + (i : Int) * os)
    (hin2 : ∀ i j : Nat, i < n → j < n →
      out + (i : Int) * os + (sz : Int) ≤ in2 + (j : Int) * s2 ∨
        in2 + (j : Int) * s2 + (sz : Int) ≤ out + (i : Int) * os) :
    ∀ k : Nat, k ≤ n →
      (∀ i : Nat, i < k →
        readElem ((List.range k).foldl
          (fun (m : Mem β) (i : Nat) =>
            writeElem m (out + (i : Int) * os)
              (op (readElem m (in1 + (i : Int) * s1) sz) (readElem m (in2 + (i : Int) * s2) sz)))
          m) (out + (i : Int) * os) sz
          = op (readElem m (in1 + (i : Int) * s1) sz) (readElem m (in2 + (i : Int) * s2) sz)) ∧
      (∀ a : Int, (∀ i : Nat, i < k → a < out + (i : Int) * os ∨ out + (i : Int) * os + (sz : Int) ≤ a) →
        (List.range k).foldl
          (fun (m : Mem β) (i : Nat) =>
            writeElem m (out + (i : Int) * os)
              (op (readElem m (in1 + (i : Int) * s1) sz) (readElem m (in2 + (i : Int) * s2) sz)))
          m a = m a) := by
  intro k
  induction k with
  | zero => intro _; exact ⟨fun i hi => absurd hi (Nat.not_lt_zero i), fun a _ => rfl⟩
  | succ k ih =>
    intro hk
    obtain ⟨ih1, ih2⟩ := ih (by omega)
    rw [List.range_succ, List.foldl_append]
    simp only [List.foldl_cons, List.foldl_nil]
    generalize hmk : (List.range k).foldl
          (fun (m : Mem β) (i : Nat) =>
            writeElem m (out + (i : Int) * os)
              (op (readElem m (in1 + (i : Int) * s1) sz) (readElem m (in2 + (i : Int) * s2) sz)))
          m = mk at ih1 ih2 ⊢
    have hr1 : readElem mk (in1 + (k : Int) * s1) sz = readElem m (in1 + (k : Int) * s1) sz := by
      apply readElem_congr
      intro a h1 h2
      apply ih2
      intro i hi
      have := hin1 i k (by omega) (by omega)
      omega
    have hr2 : readElem mk (in2 + (k : Int) * s2) sz = readElem m (in2 + (k : Int) * s2) sz := by
      apply readElem_congr
      intro a h1 h2
      apply ih2
      intro i hi
      have := hin2 i k (by omega) (by omega)
      omega
    rw [hr1, hr2]
    have hlen : (op (readElem m (in1 + (k : Int) * s1) sz)
        (readElem m (in2 + (k : Int) * s2) sz)).length = sz :=
      hop _ _ (readElem_length _ _ _) (readElem_length _ _ _)
    constructor
    · intro i hi
      by_cases hik : i = k
      · subst hik
        exact readElem_writeElem_of_length _ _ _ _ hlen
      · rw [← ih1 i (by omega)]
        apply readElem_congr
        intro a h1 h2
        apply writeElem_outside
        rw [hlen]
        have := hout i k (by omega) (by omega) hik
        omega
    · intro a ha
      rw [writeElem_outside _ _ _ _ (by rw [hlen]; exact ha k (by omega))]
      exact ih2 a (fun i hi => ha i (by omega))

/-! ## `gendot_loop`: outer loop invariant -/

theorem gendot_outer_spec {β : Type} (code : Int → LoopFn β) (d : gendot_data_t)
    (c r : List β → List β → List β) (sz : Nat)
    (hc : code d.prodfunc_loop = elementwise c sz)
    (hr : code d.sumfunc_loop = elementwise r sz)
    (hcl : ∀ a b, a.length = sz → b.length = sz → (c a b).length = sz)
    (hrl : ∀ a b, a.length = sz → b.length = sz → (r a b).length = sz)
    (hsz : (sz : Int) < 2 ^ 63) (hd : d.sumfunc_loop_itemsize = (sz : Int))
    (NL IL : Nat) (hNL : (NL : Int) < 2 ^ 31) (hIL1 : 1 ≤ IL) (hIL : (IL : Int) < 2 ^ 31)
    (px py pout tmp s0 s1 s2 s3 s4 : Int) (m0 : Mem β)
    (htt : ∀ i k : Nat, i < IL → k < IL → i ≠ k →
      tmp + (i : Int) * (sz : Int) + (sz : Int) ≤ tmp + (k : Int) * (sz : Int) ∨
        tmp + (k : Int) * (sz : Int) + (sz : Int) ≤ tmp + (i : Int) * (sz : Int))
    (htx : ∀ j i k : Nat, j < NL → i < IL → k < IL →
      tmp + (i : Int) * (sz : Int) + (sz : Int) ≤ px + (j : Int) * s0 + (k : Int) * s3 ∨
        px + (j : Int) * s0 + (k : Int) * s3 + (sz : Int) ≤ tmp + (i : Int) * (sz : Int))
    (hty : ∀ j i k : Nat, j < NL → i < IL → k < IL →
      tmp + (i : Int) * (sz : Int) + (sz : Int) ≤ py + (j : Int) * s1 + (k : Int) * s4 ∨
        py + (j : Int) * s1 + (k : Int) * s4 + (sz : Int) ≤ tmp + (i : Int) * (sz : Int))
    (hto : ∀ j i : Nat, j < NL → i < IL →
      pout + (j : Int) * s2 + (sz : Int) ≤ tmp + (i : Int) * (sz : Int) ∨
        tmp + (i : Int) * (sz : Int) + (sz : Int) ≤ pout + (j : Int) * s2)
    (hoo : ∀ j k : Nat, j < NL → k < NL → j ≠ k →
      pout + (j : Int) * s2 + (sz : Int) ≤ pout + (k : Int) * s2 ∨
        pout + (k : Int) * s2 + (sz : Int) ≤ pout + (j : Int) * s2)
    (hox : ∀ j k i : Nat, j < NL → k < NL → i < IL →
      pout + (j : Int) * s2 + (sz : Int) ≤ px + (k : Int) * s0 + (i : Int) * s3 ∨
        px + (k : Int) * s0 + (i : Int) * s3 + (sz : Int) ≤ pout + (j : Int) * s2)
    (hoy : ∀ j k i : Nat, j < NL → k < NL → i < IL →
      pout + (j : Int) * s2 + (sz : Int) ≤ py + (k : Int) * s1 + (i : Int) * s4 ∨
        py + (k : Int) * s1 + (i : Int) * s4 + (sz : Int) ≤ pout + (j : Int) * s2)
    (rfuel : Nat) (hrfuel : IL ≤ rfuel + 1) :
    ∀ (n j fuel : Nat) (s : State β), n ≤ fuel → j + n = NL →
      (∀ k : Nat, k < j → readElem s.mem (pout + (k : Int) * s2) sz
        = specDot c r sz m0 (px + (k : Int) * s0) (py + (k : Int) * s1) s3 s4 IL) →
      (∀ a : Int, (∀ i : Nat, i < IL →
          a < tmp + (i : Int) * (sz : Int) ∨ tmp + (i : Int) * (sz : Int) + (sz : Int) ≤ a) →
        (∀ k : Nat, k < j → a < pout + (k : Int) * s2 ∨ pout + (k : Int) * s2 + (sz : Int) ≤ a) →
        s.mem a = m0 a) →
      ∃ s3x, gendot_outer code rfuel [(NL : Int), (IL : Int)] [s0, s1, s2, s3, s4] d tmp fuel
          (j : Int) (px + (j : Int) * s0) (py + (j : Int) * s1) (pout + (j : Int) * s2) s
          = some s3x ∧
        (∀ k : Nat, k < NL → readElem s3x.mem (pout + (k : Int) * s2) sz
          = specDot c r sz m0 (px + (k : Int) * s0) (py + (k : Int) * s1) s3 s4 IL) ∧
        (∀ a : Int, (∀ i : Nat, i < IL →
            a < tmp + (i : Int) * (sz : Int) ∨ tmp + (i : Int) * (sz : Int) + (sz : Int) ≤ a) →
          (∀ k : Nat, k < NL →
            a < pout + (k : Int) * s2 ∨ pout + (k : Int) * s2 + (sz : Int) ≤ a) →
          s3x.mem a = m0 a) := by
  have hitem : toIntp ((toSizeT d.sumfunc_loop_itemsize : Nat) : Int) = (sz : Int) := by
    rw [hd, toSizeT_natCast sz (by omega), toIntp_of_range _ (by omega) hsz]
  intro n
  induction n with
  | zero =>
    intro j fuel s _ hj h1 h2
    have hjN : ¬ ((j : Int) < (NL : Int)) := by omega
    have hjeq : j = NL := by omega
    subst hjeq
    refine ⟨s, ?_, h1, h2⟩
    cases fuel <;> simp [gendot_outer]
  | succ n ih =>
    intro j fuel s hfuel hj h1 h2
    obtain ⟨fuel, rfl⟩ : ∃ g, fuel = g + 1 := ⟨fuel - 1, by omega⟩
    have hjN : (j : Int) < (NL : Int) := by omega
    have hjlt : j < NL := by omega
    have hw : wrapInt ((j : Int) + 1) = ((j + 1 : Nat) : Int) := by
      rw [wrapInt_of_range] <;> push_cast <;> omega
    -- combine step
    obtain ⟨hp1, hp2⟩ := elementwise_upto c sz hcl (px + (j : Int) * s0) (py + (j : Int) * s1)
      tmp s3 s4 (sz : Int) IL s.mem htt
      (fun i k hi hk => htx j i k hjlt hi hk) (fun i k hi hk => hty j i k hjlt hi hk)
      IL (le_refl _)
    have hs1 : (invoke code d.prodfunc_loop [px + (j : Int) * s0, py + (j : Int) * s1, tmp]
        [(IL : Int), (IL : Int), (IL : Int)] [s3, s4, (sz : Int)] d.prodfunc_loop_data s).mem
        = (List.range IL).foldl
          (fun (m : Mem β) (i : Nat) =>
            writeElem m (tmp + (i : Int) * (sz : Int))
              (c (readElem m (px + (j : Int) * s0 + (i : Int) * s3) sz)
                 (readElem m (py + (j : Int) * s1 + (i : Int) * s4) sz)))
          s.mem := by
      simp [invoke, hc, elementwise]
    generalize hs1def : invoke code d.prodfunc_loop
        [px + (j : Int) * s0, py + (j : Int) * s1, tmp]
        [(IL : Int), (IL : Int), (IL : Int)] [s3, s4, (sz : Int)] d.prodfunc_loop_data s = st1
      at hs1
    rw [← hs1] at hp1 hp2
    -- inputs of entry j are still the original ones
    have hxj : ∀ i : Nat, i < IL → readElem s.mem (px + (j : Int) * s0 + (i : Int) * s3) sz
        = readElem m0 (px + (j : Int) * s0 + (i : Int) * s3) sz := by
      intro i hi
      apply readElem_congr
      intro a ha1 ha2
      apply h2
      · intro i2 hi2
        have := htx j i2 i hjlt hi2 hi
        omega
      · intro k hk
        have := hox k j i (by omega) hjlt hi
        omega
    have hyj : ∀ i : Nat, i < IL → readElem s.mem (py + (j : Int) * s1 + (i : Int) * s4) sz
        = readElem m0 (py + (j : Int) * s1 + (i : Int) * s4) sz := by
      intro i hi
      apply readElem_congr
      intro a ha1 ha2
      apply h2
      · intro i2 hi2
        have := hty j i2 i hjlt hi2 hi
        omega
      · intro k hk
        have := hoy k j i (by omega) hjlt hi
        omega
    -- reduce step
    obtain ⟨st2, e1, e2, e3, _⟩ := reduce_fold code d.sumfunc_loop d.sumfunc_loop_data r sz hr hrl
      (by omega) tmp (sz : Int) (pout + (j : Int) * s2) IL hIL1 hIL
      (fun i hi => hto j i hjlt hi) rfuel hrfuel st1
    have hval : readElem st2.mem (pout + (j : Int) * s2) sz
        = specDot c r sz m0 (px + (j : Int) * s0) (py + (j : Int) * s1) s3 s4 IL := by
      rw [e2, specDot]
      have h0 := hp1 0 (by omega)
      simp only [Nat.cast_zero, zero_mul, add_zero] at h0
      have hx0 := hxj 0 (by omega)
      have hy0 := hyj 0 (by omega)
      simp only [Nat.cast_zero, zero_mul, add_zero] at hx0 hy0
      rw [h0, hx0, hy0]
      refine congrArg _ ?_
      apply List.map_congr_left
      intro i hi
      have hi2 := List.mem_range'_1.1 hi
      rw [hp1 i (by omega), hxj i (by omega), hyj i (by omega)]
    obtain ⟨s3x, f1, f2, f3⟩ := ih (j + 1) fuel st2 (by omega) (by omega)
      (by
        intro k hk
        by_cases hkj : k = j
        · subst hkj; exact hval
        · rw [← h1 k (by omega)]
          apply readElem_congr
          intro a ha1 ha2
          rw [e3 a (by have := hoo k j (by omega) hjlt hkj; omega)]
          apply hp2
          intro i hi
          have := hto k i (by omega) hi
          omega)
      (by
        intro a ha1 ha2
        rw [e3 a (ha2 j (by omega)), hp2 a ha1]
        exact h2 a ha1 (fun k hk => ha2 k (by omega)))
    refine ⟨s3x, ?_, f2, f3⟩
    rw [gendot_outer]
    simp only [List.getD_cons_zero, List.getD_cons_succ, if_pos hjN, hitem, hs1def, e1, hw]
    have e : ∀ (p q : Int), p + (j : Int) * q + q = p + ((j + 1 : Nat) : Int) * q := by
      intro p q; push_cast; ring
    rw [e, e, e]
    exact f1

theorem scratch_size_eq (NL : Int) (d : gendot_data_t) (n sz : Nat)
    (hd : d.sumfunc_loop_itemsize = (sz : Int))
    (hfit : n * sz < 2 ^ 64) (hn : (n : Int) < 2 ^ 31) (hsz : (sz : Int) < 2 ^ 63) :
    scratch_size [NL, (n : Int)] d = n * sz := by
  have h1 : n < 2 ^ 64 := by omega
  have h2 : sz < 2 ^ 64 := by omega
  simp only [scratch_size, List.getD_cons_zero, List.getD_cons_succ, hd, mulSizeT,
    toSizeT_natCast n h1, toSizeT_natCast sz h2]
  exact Nat.mod_eq_of_lt hfit

theorem elem_in_block (tmp : Int) (i n sz : Nat) (hi : i < n) :
    tmp ≤ tmp + (i : Int) * (sz : Int) ∧
      tmp + (i : Int) * (sz : Int) + (sz : Int) ≤ tmp + ((n * sz : Nat) : Int) := by
  have h : (i + 1) * sz ≤ n * sz := Nat.mul_le_mul_right sz hi
  have h2 : (((i + 1) * sz : Nat) : Int) ≤ ((n * sz : Nat) : Int) := by exact_mod_cast h
  have h3 : (0 : Int) ≤ (i : Int) * (sz : Int) := by positivity
  push_cast at h2 ⊢
  constructor
  · omega
  · nlinarith

theorem elems_disjoint (tmp : Int) (i k sz : Nat) (hik : i ≠ k) :
    tmp + (i : Int) * (sz : Int) + (sz : Int) ≤ tmp + (k : Int) * (sz : Int) ∨
      tmp + (k : Int) * (sz : Int) + (sz : Int) ≤ tmp + (i : Int) * (sz : Int) := by
  rcases Nat.lt_or_gt_of_ne hik with h | h
  · left
    have h1 : (i + 1) * sz ≤ k * sz := Nat.mul_le_mul_right sz h
    have h2 : (((i + 1) * sz : Nat) : Int) ≤ ((k * sz : Nat) : Int) := by exact_mod_cast h1
    push_cast at h2
    nlinarith
  · right
    have h1 : (k + 1) * sz ≤ i * sz := Nat.mul_le_mul_right sz h
    have h2 : (((k + 1) * sz : Nat) : Int) ≤ ((i * sz : Nat) : Int) := by exact_mod_cast h1
    push_cast at h2
    nlinarith

/-- For `nloops ≤ INT_MAX`, `1 ≤ innerLen ≤ INT_MAX`, elementwise operators on
`sz`-cell elements, a successful allocation of a scratch block that meets neither
inputs nor outputs, output slots that are pairwise disjoint and disjoint from the
inputs, and enough fuel: `gendot_loop` returns, output slot `j` holds the left fold
of the reduce operator over the combined inner sequences of entry `j` for every
`j < nloops`, and no cell outside the scratch block and the output slots changes. -/
theorem gendot_loop_spec {β : Type} (code : Int → LoopFn β) (malloc : Nat → Option Int)
    (d : gendot_data_t) (c r : List β → List β → List β) (sz : Nat)
    (hc : code d.prodfunc_loop = elementwise c sz)
    (hr : code d.sumfunc_loop = elementwise r sz)
    (hcl : ∀ a b, a.length = sz → b.length = sz → (c a b).length = sz)
    (hrl : ∀ a b, a.length = sz → b.length = sz → (r a b).length = sz)
    (hsz : (sz : Int) < 2 ^ 63) (hd : d.sumfunc_loop_itemsize = (sz : Int))
    (NL IL : Nat) (hNL : (NL : Int) < 2 ^ 31) (hIL1 : 1 ≤ IL) (hIL : (IL : Int) < 2 ^ 31)
    (hfit : IL * sz < 2 ^ 64)
    (px py pout tmp s0 s1 s2 s3 s4 : Int)
    (hmalloc : malloc (scratch_size [(NL : Int), (IL : Int)] d) = some tmp)
    (hbx : ∀ j i : Nat, j < NL → i < IL →
      tmp + ((scratch_size [(NL : Int), (IL : Int)] d : Nat) : Int) ≤ px + (j : Int) * s0 + (i : Int) * s3 ∨
        px + (j : Int) * s0 + (i : Int) * s3 + (sz : Int) ≤ tmp)
    (hby : ∀ j i : Nat, j < NL → i < IL →
      tmp + ((scratch_size [(NL : Int), (IL : Int)] d : Nat) : Int) ≤ py + (j : Int) * s1 + (i : Int) * s4 ∨
        py + (j : Int) * s1 + (i : Int) * s4 + (sz : Int) ≤ tmp)
    (hbo : ∀ j : Nat, j < NL →
      tmp + ((scratch_size [(NL : Int), (IL : Int)] d : Nat) : Int) ≤ pout + (j : Int) * s2 ∨
        pout + (j : Int) * s2 + (sz : Int) ≤ tmp)
    (hoo : ∀ j k : Nat, j < NL → k < NL → j ≠ k →
      pout + (j : Int) * s2 + (sz : Int) ≤ pout + (k : Int) * s2 ∨
        pout + (k : Int) * s2 + (sz : Int) ≤ pout + (j : Int) * s2)
    (hox : ∀ j k i : Nat, j < NL → k < NL → i < IL →
      pout + (j : Int) * s2 + (sz : Int) ≤ px + (k : Int) * s0 + (i : Int) * s3 ∨
        px + (k : Int) * s0 + (i : Int) * s3 + (sz : Int) ≤ pout + (j : Int) * s2)
    (hoy : ∀ j k i : Nat, j < NL → k < NL → i < IL →
      pout + (j : Int) * s2 + (sz : Int) ≤ py + (k : Int) * s1 + (i : Int) * s4 ∨
        py + (k : Int) * s1 + (i : Int) * s4 + (sz : Int) ≤ pout + (j : Int) * s2)
    (fuel : Nat) (hf1 : NL ≤ fuel) (hf2 : IL ≤ fuel + 1) (s : State β) :
    ∃ s2x, gendot_loop code malloc fuel [px, py, pout] [(NL : Int), (IL : Int)]
        [s0, s1, s2, s3, s4] d s = some s2x ∧
      (∀ j : Nat, j < NL → readElem s2x.mem (pout + (j : Int) * s2) sz
        = specDot c r sz s.mem (px + (j : Int) * s0) (py + (j : Int) * s1) s3 s4 IL) ∧
      (∀ a : Int, (a < tmp ∨ tmp + ((scratch_size [(NL : Int), (IL : Int)] d : Nat) : Int) ≤ a) →
        (∀ k : Nat, k < NL →
          a < pout + (k : Int) * s2 ∨ pout + (k : Int) * s2 + (sz : Int) ≤ a) →
        s2x.mem a = s.mem a) := by
  have hss := scratch_size_eq (NL : Int) d IL sz hd hfit hIL hsz
  rw [hss] at hbx hby hbo hmalloc ⊢
  have hIL0 : ¬ ((IL : Int) = 0) := by omega
  obtain ⟨s3x, e1, e2, e3⟩ := gendot_outer_spec code d c r sz hc hr hcl hrl hsz hd NL IL hNL hIL1
    hIL px py pout tmp s0 s1 s2 s3 s4 s.mem
    (fun i k _ _ hik => elems_disjoint tmp i k sz hik)
    (fun j i k hj hi hk => by
      have := elem_in_block tmp i IL sz hi
      have := hbx j k hj hk
      omega)
    (fun j i k hj hi hk => by
      have := elem_in_block tmp i IL sz hi
      have := hby j k hj hk
      omega)
    (fun j i hj hi => by
      have := elem_in_block tmp i IL sz hi
      have := hbo j hj
      omega)
    hoo hox hoy fuel hf2 NL 0 fuel
    { s with trace := s.trace ++
        [Event.malloc (IL * sz) (some tmp)] }
    hf1 (by omega) (fun k hk => absurd hk (Nat.not_lt_zero k)) (fun a _ _ => rfl)
  simp only [Nat.cast_zero, zero_mul, add_zero] at e1
  refine ⟨{ s3x with trace := s3x.trace ++ [Event.free tmp] }, ?_, e2, ?_⟩
  · simp only [gendot_loop, List.getD_cons_zero, List.getD_cons_succ, if_neg hIL0, hss, hmalloc, e1]
  · intro a ha1 ha2
    apply e3 a _ ha2
    intro i hi
    have := elem_in_block tmp i IL sz hi
    omega

/-! ## Fuel monotonicity, data independence of termination, divergence -/

theorem gendot_outer_diverges {β : Type} (code : Int → LoopFn β) (rfuel : Nat)
    (dimensions steps : List Int) (d : gendot_data_t) (tmp : Int)
    (hn : 2 ^ 31 ≤ dimensions.getD 0 0) :
    ∀ (fuel : Nat) (j px py pout : Int) (s : State β), j < 2 ^ 31 →
      gendot_outer code rfuel dimensions steps d tmp fuel j px py pout s = none := by
  intro fuel
  induction fuel with
  | zero =>
    intro j px py pout s hj
    have : j < dimensions.getD 0 0 := by omega
    rw [gendot_outer, if_pos this]
  | succ fuel ih =>
    intro j px py pout s hj
    have : j < dimensions.getD 0 0 := by omega
    rw [gendot_outer, if_pos this]
    simp only
    split
    · rfl
    · exact ih _ _ _ _ _ (wrapInt_range _).2

theorem gendot_outer_diverges_inner {β : Type} (code : Int → LoopFn β) (rfuel : Nat)
    (dimensions steps : List Int) (d : gendot_data_t) (tmp : Int)
    (hn : 2 ^ 31 ≤ dimensions.getD 1 0) (fuel : Nat) (j px py pout : Int) (s : State β)
    (hj : j < dimensions.getD 0 0) :
    gendot_outer code rfuel dimensions steps d tmp fuel j px py pout s = none := by
  cases fuel with
  | zero => rw [gendot_outer, if_pos hj]
  | succ fuel =>
    rw [gendot_outer, if_pos hj]
    simp only
    rw [reduce_diverges _ _ _ _ _ _ _ _ _ _ hn]

theorem gendot_loop_diverges_outer {β : Type} (code : Int → LoopFn β)
    (malloc : Nat → Option Int) (fuel : Nat) (args dimensions steps : List Int)
    (d : gendot_data_t) (s : State β) (tmp : Int)
    (h0 : dimensions.getD 1 0 ≠ 0) (hm : malloc (scratch_size dimensions d) = some tmp)
    (hn : 2 ^ 31 ≤ dimensions.getD 0 0) :
    gendot_loop code malloc fuel args dimensions steps d s = none := by
  unfold gendot_loop
  rw [if_neg h0]
  simp only [hm]
  rw [gendot_outer_diverges code fuel dimensions steps d tmp hn fuel 0 _ _ _ _ (by norm_num)]

theorem gendot_loop_diverges_inner {β : Type} (code : Int → LoopFn β)
    (malloc : Nat → Option Int) (fuel : Nat) (args dimensions steps : List Int)
    (d : gendot_data_t) (s : State β) (tmp : Int)
    (hm : malloc (scratch_size dimensions d) = some tmp)
    (h1 : 0 < dimensions.getD 0 0) (hn : 2 ^ 31 ≤ dimensions.getD 1 0) :
    gendot_loop code malloc fuel args dimensions steps d s = none := by
  unfold gendot_loop
  have h0 : ¬ dimensions.getD 1 0 = 0 := by omega
  rw [if_neg h0]
  simp only [hm]
  rw [gendot_outer_diverges_inner code fuel dimensions steps d tmp hn fuel 0 _ _ _ _ h1]

/-! ## Dot products -/

theorem foldl_decode_sum {β : Type} (r : List β → List β → List β) (dec : List β → Int)
    (hr : ∀ a b, dec (r a b) = dec a + dec b) :
    ∀ (l : List (List β)) (acc : List β),
      dec (List.foldl r acc l) = dec acc + (l.map dec).sum := by
  intro l
  induction l with
  | nil => intro acc; simp
  | cons v l ih =>
    intro acc
    rw [List.foldl_cons, ih, hr, List.map_cons, List.sum_cons]
    ring

theorem list_range_sum_eq (h : Nat → Int) :
    ∀ n : Nat, ((List.range n).map h).sum = Finset.sum (Finset.range n) h := by
  intro n
  induction n with
  | zero => simp
  | succ n ih => rw [List.range_succ, List.map_append, List.sum_append, ih,
      Finset.sum_range_succ]; simp

/-- With a combine operator that decodes to multiplication and a reduce operator that
decodes to addition, the specification value decodes to the dot product. -/
theorem specDot_decode {β : Type} (c r : List β → List β → List β) (dec : List β → Int)
    (hc : ∀ a b, dec (c a b) = dec a * dec b) (hr : ∀ a b, dec (r a b) = dec a + dec b)
    (sz : Nat) (m : Mem β) (px py sx sy : Int) (IL : Nat) (hIL : 1 ≤ IL) :
    dec (specDot c r sz m px py sx sy IL)
      = Finset.sum (Finset.range IL) (fun (i : Nat) =>
          dec (readElem m (px + (i : Int) * sx) sz) * dec (readElem m (py + (i : Int) * sy) sz)) := by
  obtain ⟨n, rfl⟩ : ∃ n, IL = n + 1 := ⟨IL - 1, by omega⟩
  rw [specDot, foldl_decode_sum r dec hr, hc, Finset.sum_range_succ', List.range'_eq_map_range]
  simp only [Nat.add_sub_cancel, List.map_map, Nat.cast_zero, zero_mul, add_zero]
  rw [add_comm]
  congr 1
  rw [← list_range_sum_eq]
  apply congrArg
  apply List.map_congr_left
  intro i _
  simp [hc, add_comm]

/-! ## Claims C1 to C6 -/

/-- At the three-element sequence `[a, b, c]` with integer subtraction, `reduce` leaves
`(a - b) - c` in the result buffer: the grouping is the left-to-right one. -/
theorem reduce_sub_grouping (a b c : Int) :
    (reduce exCode 2 9 0 0 3 1 1 100 ⟨writeElem (fun _ => 0) 0 [a, b, c], []⟩).map
      (fun s => readElem s.mem 100 1) = some [(a - b) - c] := by
  obtain ⟨s2, e1, e2, _, _⟩ := reduce_fold exCode 9 0 subOp 1 (by simp [exCode])
    (fun _ _ _ _ => rfl) (by norm_num) 0 1 100 3 (by norm_num) (by norm_num)
    (fun k hk => by right; push_cast; omega) 2 (by norm_num)
    ⟨writeElem (fun _ => 0) 0 [a, b, c], []⟩
  have e1b : reduce exCode 2 9 0 0 3 1 1 100 ⟨writeElem (fun _ => 0) 0 [a, b, c], []⟩
      = some s2 := by simpa using e1
  rw [e1b, Option.map_some']
  simp only [e2]
  simp [readElem, writeElem, subOp, List.range_succ, List.range'_succ]

/-- C1 (code defect at the failing input `n = 2^31`).  For every reduce operator,
sequence, stride, item size, result buffer and amount of fuel, `reduce` called with
`n = 2^31` never returns: the 32-bit counter `k` runs up to `2^31 - 1`, wraps to
`-2^31` and stays below `n`, so the result buffer is never left holding the left
fold of the `2^31` elements. -/
theorem reduce_int_counter_never_reaches_n {β : Type} (code : Int → LoopFn β) (fuel : Nat)
    (loop_function loop_data data stride itemsize result : Int) (s : State β) :
    reduce code fuel loop_function loop_data data (2 ^ 31) stride itemsize result s = none :=
  reduce_diverges code fuel loop_function loop_data data (2 ^ 31) stride itemsize result s
    (le_refl _)

/-- C2 (code defect at the failing input `nloops = 2^31`, `innerLen = 1`).  For every
pair of operators, every input, every stride and every amount of fuel, when the
scratch allocation succeeds `gendot_loop` never returns: the 32-bit counter `j` wraps
to `-2^31` after `2^31 - 1` and stays below `nloops`, so the call never finishes
with the `2^31` output slots filled. -/
theorem gendot_loop_outer_counter_never_reaches_nloops {β : Type} (code : Int → LoopFn β)
    (tmp : Int) (fuel : Nat) (args steps : List Int) (data : gendot_data_t) (s : State β) :
    gendot_loop code (fun _ => some tmp) fuel args [2 ^ 31, 1] steps data s = none :=
  gendot_loop_diverges_outer code (fun _ => some tmp) fuel args [2 ^ 31, 1] steps data s tmp
    (by simp) rfl (by simp)

/-- C3 (code defect at the failing input `nloops = 1`, `innerLen = 2^31`).  With the
multiplication loop as combine operator and the addition loop as reduce operator, for
every two input vectors of `2^31` elements, every stride and every amount of fuel,
when the scratch allocation succeeds `gendot_loop` never returns: the 32-bit counter
`k` of `reduce` wraps before it reaches `innerLen`, so no dot product is delivered. -/
theorem gendot_loop_dot_inner_counter_never_reaches_len (m : Mem Int) (tmp : Int)
    (fuel : Nat) (args steps : List Int) :
    gendot_loop exCode (fun _ => some tmp) fuel args [1, 2 ^ 31] steps exData ⟨m, []⟩ = none :=
  gendot_loop_diverges_inner exCode (fun _ => some tmp) fuel args [1, 2 ^ 31] steps exData
    ⟨m, []⟩ tmp rfl (by simp) (by simp)

/-- C4.  When `dimensions[1]` (the inner length) is 0, `gendot_loop` returns the state
it was given: memory, the output slots included, is unchanged, and the trace is
unchanged, so neither operator has been called (and nothing has been allocated). -/
theorem gendot_loop_inner_zero_noop {β : Type} (code : Int → LoopFn β)
    (malloc : Nat → Option Int) (fuel : Nat) (args dimensions steps : List Int)
    (data : gendot_data_t) (s : State β) (h : dimensions.getD 1 0 = 0) :
    gendot_loop code malloc fuel args dimensions steps data s = some s := by
  unfold gendot_loop
  rw [if_pos h]

/-- Witness of C4: a batch of two entries with inner length 0. -/
theorem gendot_loop_inner_zero_noop_witness :
    gendot_loop exCode exMalloc 0 [0, 10, 50] [2, 0] [0, 0, 1, 1, 1] exData ⟨exMem2, []⟩
      = some ⟨exMem2, []⟩ :=
  gendot_loop_inner_zero_noop exCode exMalloc 0 [0, 10, 50] [2, 0] [0, 0, 1, 1, 1] exData
    ⟨exMem2, []⟩ rfl

/-- C5.  For every `n ≤ 0`, `reduce` returns the state it was given: memory, the result
buffer included, is unchanged, and the trace is unchanged, so the reduce operator has
not been called. -/
theorem reduce_nonpositive_noop {β : Type} (code : Int → LoopFn β) (fuel : Nat)
    (loop_function loop_data data n stride itemsize result : Int) (s : State β)
    (h : n ≤ 0) :
    reduce code fuel loop_function loop_data data n stride itemsize result s = some s := by
  unfold reduce
  rw [if_pos h]

/-- Witness of C5: `n = -3`. -/
theorem reduce_nonpositive_noop_witness :
    reduce exCode 0 8 0 0 (-3) 1 1 100 ⟨exMem4, []⟩ = some ⟨exMem4, []⟩ :=
  reduce_nonpositive_noop exCode 0 8 0 0 (-3) 1 1 100 ⟨exMem4, []⟩ (by decide)

/-- C6.  When `dimensions[1]` is not 0 and the scratch allocation fails, `gendot_loop`
returns with memory unchanged (every output slot keeps its contents) and with the
failed allocation as the only new entry of the trace: neither operator has been
called, for every `nloops`. -/
theorem gendot_loop_alloc_failure {β : Type} (code : Int → LoopFn β)
    (malloc : Nat → Option Int) (fuel : Nat) (args dimensions steps : List Int)
    (data : gendot_data_t) (s : State β) (h0 : dimensions.getD 1 0 ≠ 0)
    (hm : malloc (scratch_size dimensions data) = none) :
    gendot_loop code malloc fuel args dimensions steps data s
      = some { mem := s.mem
               trace := s.trace ++ [Event.malloc (scratch_size dimensions data) none] } := by
  unfold gendot_loop
  rw [if_neg h0]
  simp only [hm]

/-- Witness of C6: one entry of inner length 3 and a failing allocator. -/
theorem gendot_loop_alloc_failure_witness :
    gendot_loop exCode exNoMem 5 [0, 10, 50] [1, 3] [3, 3, 1, 1, 1] exData ⟨exMem1, []⟩
      = some { mem := exMem1, trace := [] ++ [Event.malloc 3 none] } :=
  gendot_loop_alloc_failure exCode exNoMem 5 [0, 10, 50] [1, 3] [3, 3, 1, 1, 1] exData
    ⟨exMem1, []⟩ (by decide) rfl

/-! ## Dot product in range, examples, and claim C7 -/

/-- Dot product, in range: under the hypotheses of `gendot_loop_spec`, with a combine
operator that decodes to multiplication and a reduce operator that decodes to
addition, output slot `j` decodes to the sum over `i < innerLen` of
`x_j[i] * y_j[i]`, for every `j < nloops`. -/
theorem gendot_loop_dot {β : Type} (code : Int → LoopFn β) (malloc : Nat → Option Int)
    (d : gendot_data_t) (c r : List β → List β → List β) (sz : Nat) (dec : List β → Int)
    (hdc : ∀ a b, dec (c a b) = dec a * dec b) (hdr : ∀ a b, dec (r a b) = dec a + dec b)
    (hc : code d.prodfunc_loop = elementwise c sz)
    (hr : code d.sumfunc_loop = elementwise r sz)
    (hcl : ∀ a b, a.length = sz → b.length = sz → (c a b).length = sz)
    (hrl : ∀ a b, a.length = sz → b.length = sz → (r a b).length = sz)
    (hsz : (sz : Int) < 2 ^ 63) (hd : d.sumfunc_loop_itemsize = (sz : Int))
    (NL IL : Nat) (hNL : (NL : Int) < 2 ^ 31) (hIL1 : 1 ≤ IL) (hIL : (IL : Int) < 2 ^ 31)
    (hfit : IL * sz < 2 ^ 64)
    (px py pout tmp s0 s1 s2 s3 s4 : Int)
    (hmalloc : malloc (scratch_size [(NL : Int), (IL : Int)] d) = some tmp)
    (hbx : ∀ j i : Nat, j < NL → i < IL →
      tmp + ((scratch_size [(NL : Int), (IL : Int)] d : Nat) : Int)
          ≤ px + (j : Int) * s0 + (i : Int) * s3 ∨
        px + (j : Int) * s0 + (i : Int) * s3 + (sz : Int) ≤ tmp)
    (hby : ∀ j i : Nat, j < NL → i < IL →
      tmp + ((scratch_size [(NL : Int), (IL : Int)] d : Nat) : Int)
          ≤ py + (j : Int) * s1 + (i : Int) * s4 ∨
        py + (j : Int) * s1 + (i : Int) * s4 + (sz : Int) ≤ tmp)
    (hbo : ∀ j : Nat, j < NL →
      tmp + ((scratch_size [(NL : Int), (IL : Int)] d : Nat) : Int) ≤ pout + (j : Int) * s2 ∨
        pout + (j : Int) * s2 + (sz : Int) ≤ tmp)
    (hoo : ∀ j k : Nat, j < NL → k < NL → j ≠ k →
      pout + (j : Int) * s2 + (sz : Int) ≤ pout + (k : Int) * s2 ∨
        pout + (k : Int) * s2 + (sz : Int) ≤ pout + (j : Int) * s2)
    (hox : ∀ j k i : Nat, j < NL → k < NL → i < IL →
      pout + (j : Int) * s2 + (sz : Int) ≤ px + (k : Int) * s0 + (i : Int) * s3 ∨
        px + (k : Int) * s0 + (i : Int) * s3 + (sz : Int) ≤ pout + (j : Int) * s2)
    (hoy : ∀ j k i : Nat, j < NL → k < NL → i < IL →
      pout + (j : Int) * s2 + (sz : Int) ≤ py + (k : Int) * s1 + (i : Int) * s4 ∨
        py + (k : Int) * s1 + (i : Int) * s4 + (sz : Int) ≤ pout + (j : Int) * s2)
    (fuel : Nat) (hf1 : NL ≤ fuel) (hf2 : IL ≤ fuel + 1) (s : State β) :
    ∃ s2x, gendot_loop code malloc fuel [px, py, pout] [(NL : Int), (IL : Int)]
        [s0, s1, s2, s3, s4] d s = some s2x ∧
      ∀ j : Nat, j < NL → dec (readElem s2x.mem (pout + (j : Int) * s2) sz)
        = Finset.sum (Finset.range IL) (fun (i : Nat) =>
            dec (readElem s.mem (px + (j : Int) * s0 + (i : Int) * s3) sz)
              * dec (readElem s.mem (py + (j : Int) * s1 + (i : Int) * s4) sz)) := by
  obtain ⟨s2x, e1, e2, _⟩ := gendot_loop_spec code malloc d c r sz hc hr hcl hrl hsz hd
    NL IL hNL hIL1 hIL hfit px py pout tmp s0 s1 s2 s3 s4 hmalloc hbx hby hbo hoo hox hoy
    fuel hf1 hf2 s
  refine ⟨s2x, e1, fun j hj => ?_⟩
  rw [e2 j hj]
  exact specDot_decode c r dec hdc hdr sz s.mem _ _ s3 s4 IL hIL1

/-- The single pair `[1,2,3]`, `[4,5,6]` with multiply and add yields 32. -/
theorem gendot_loop_example_single :
    (gendot_loop exCode exMalloc 3 [0, 10, 50] [1, 3] [3, 3, 1, 1, 1] exData
      ⟨exMem1, []⟩).map (fun s => readElem s.mem 50 1) = some [32] := by decide

/-- The batch of the two pairs `([1,1],[1,1])` and `([2,0],[0,2])` with multiply and
add yields `[2, 0]`. -/
theorem gendot_loop_example_batch :
    (gendot_loop exCode exMalloc 3 [0, 10, 50] [2, 2] [2, 2, 1, 1, 1] exData
      ⟨exMem2, []⟩).map (fun s => readElem s.mem 50 2) = some [2, 0] := by decide
theorem readArr_natCast {α : Type} (arr : List α) (k : Nat) (dflt : α) :
    readArr arr (k : Int) dflt = arr.getD k dflt := by
  simp [readArr]

theorem sizes_no_wrap (n : Nat) (hn : n * 40 < 2 ^ 64) :
    sizeof_gendot_funcs (n : Int) = 8 * n ∧ sizeof_gendot_data_ptrs (n : Int) = 8 * n ∧
      sizeof_gendot_data (n : Int) = 40 * n ∧ sizeof_gendot_typecodes (n : Int) = 3 * n := by
  have h1 : toSizeT (n : Int) = n := toSizeT_natCast n (by omega)
  have h2 : toIntp ((n : Int) * 3) = ((3 * n : Nat) : Int) := by
    rw [toIntp_of_range] <;> push_cast <;> omega
  have h3 : toSizeT ((3 * n : Nat) : Int) = 3 * n := toSizeT_natCast _ (by omega)
  simp only [sizeof_gendot_funcs, sizeof_gendot_data_ptrs, sizeof_gendot_data,
    sizeof_gendot_typecodes, h1, h2, h3, mulSizeT, sizeof_ptr, sizeof_gendot_data_t]
  refine ⟨?_, ?_, ?_, ?_⟩ <;> omega

theorem store_cell_same (h : Heap) (a : Int) (sz : Nat) (v : Val) :
    (h.store a sz v).cell a = some v := by
  simp [Heap.store]

theorem store_cell_ne (h : Heap) (a b : Int) (sz : Nat) (v : Val) (hab : a ≠ b) :
    (h.store b sz v).cell a = h.cell a := by
  simp [Heap.store, hab]

theorem layout_no_wrap (mem : Int) (N : Nat) (hN : (N : Int) < 2 ^ 31) :
    gendot_data_ptrs mem (N : Int) = mem + 8 * (N : Int) ∧
      gendot_data mem (N : Int) = mem + 16 * (N : Int) ∧
      gendot_typecodes mem (N : Int) = mem + 56 * (N : Int) := by
  obtain ⟨hF, hP, hD, _⟩ := sizes_no_wrap N (by omega)
  refine ⟨?_, ?_, ?_⟩
  · simp only [gendot_data_ptrs, hF]; push_cast; ring
  · simp only [gendot_data, hF, hP]; push_cast; ring
  · simp only [gendot_typecodes, hF, hP, hD]; push_cast; ring

theorem block_offsets (mem : Int) (n : Nat) (name doc : List Nat)
    (hfit : 59 * n + (name.length + 1) + (doc.length + 1) < 2 ^ 64) :
    gendot_data_ptrs mem (n : Int) = mem + 8 * (n : Int) ∧
    gendot_data mem (n : Int) = mem + 16 * (n : Int) ∧
    gendot_typecodes mem (n : Int) = mem + 56 * (n : Int) ∧
    gendot_name mem (n : Int) = mem + 59 * (n : Int) ∧
    gendot_doc mem (n : Int) name = mem + 59 * (n : Int) + ((name.length : Int) + 1) ∧
    ((total_memory_required (n : Int) name doc : Nat) : Int)
      = 59 * (n : Int) + ((name.length : Int) + 1) + ((doc.length : Int) + 1) ∧
    sizeof_gendot_typecodes (n : Int) = 3 * n := by
  obtain ⟨hF, hP, hD, hT⟩ := sizes_no_wrap n (by omega)
  have hsn : addSizeT (strlen name) 1 = name.length + 1 := by
    simp only [addSizeT, strlen, toSizeT_natCast name.length (by omega)]; omega
  have hsd : addSizeT (strlen doc) 1 = doc.length + 1 := by
    simp only [addSizeT, strlen, toSizeT_natCast doc.length (by omega)]; omega
  have e1 : addSizeT (8 * n) (8 * n) = 16 * n := by unfold addSizeT; omega
  have e2 : addSizeT (16 * n) (40 * n) = 56 * n := by unfold addSizeT; omega
  have e3 : addSizeT (56 * n) (3 * n) = 59 * n := by unfold addSizeT; omega
  have e4 : addSizeT (59 * n) (name.length + 1) = 59 * n + (name.length + 1) := by
    unfold addSizeT; omega
  have e5 : addSizeT (59 * n + (name.length + 1)) (doc.length + 1)
      = 59 * n + (name.length + 1) + (doc.length + 1) := by
    unfold addSizeT; omega
  refine ⟨?_, ?_, ?_, ?_, ?_, ?_, hT⟩
  · simp only [gendot_data_ptrs, hF]; push_cast; ring
  · simp only [gendot_data, hF, hP]; push_cast; ring
  · simp only [gendot_typecodes, hF, hP, hD]; push_cast; ring
  · simp only [gendot_name, hF, hP, hD, hT]; push_cast; ring
  · simp only [gendot_doc, hF, hP, hD, hT, hsn]; push_cast; ring
  · simp only [total_memory_required, hF, hP, hD, hT, hsn, hsd, e1, e2, e3, e4, e5]
    push_cast; ring

theorem fill_body_record_same (loop_addr : Int) (prodfunc sumfunc : PyUFuncObject)
    (pairs : List func_index_pair) (itemsizes : List Int) (mem : Int) (N : Nat)
    (hN : (N : Int) < 2 ^ 31) (k : Nat) (hk : k < N) (h : Heap) :
    record_filled
      (fill_body loop_addr prodfunc sumfunc pairs itemsizes mem (N : Int) (k : Int) h)
      mem (N : Int) prodfunc sumfunc k (pairs.getD k ⟨0, 0⟩) (itemsizes.getD k 0) := by
  obtain ⟨hptrs, hdata, _⟩ := layout_no_wrap mem N hN
  simp only [record_filled, fill_body, readArr_natCast, hdata, hptrs, gendot_funcs,
    sizeof_ptr, sizeof_gendot_data_t, offsetof_prodfunc_loop,
    offsetof_prodfunc_loop_data, offsetof_sumfunc_loop, offsetof_sumfunc_loop_data,
    offsetof_sumfunc_loop_itemsize]
  push_cast
  refine ⟨?_, ?_, ?_, ?_, ?_⟩
  · rw [store_cell_ne _ _ _ _ _ (by omega), store_cell_ne _ _ _ _ _ (by omega),
      store_cell_ne _ _ _ _ _ (by omega), store_cell_ne _ _ _ _ _ (by omega),
      store_cell_ne _ _ _ _ _ (by omega), store_cell_same]
  · rw [store_cell_ne _ _ _ _ _ (by omega), store_cell_ne _ _ _ _ _ (by omega),
      store_cell_ne _ _ _ _ _ (by omega), store_cell_ne _ _ _ _ _ (by omega),
      store_cell_same]
  · rw [store_cell_ne _ _ _ _ _ (by omega), store_cell_ne _ _ _ _ _ (by omega),
      store_cell_ne _ _ _ _ _ (by omega), store_cell_same]
  · rw [store_cell_ne _ _ _ _ _ (by omega), store_cell_ne _ _ _ _ _ (by omega),
      store_cell_same]
  · rw [store_cell_ne _ _ _ _ _ (by omega), store_cell_same]

theorem fill_body_record_other (loop_addr : Int) (prodfunc sumfunc : PyUFuncObject)
    (pairs : List func_index_pair) (itemsizes : List Int) (mem : Int) (N : Nat)
    (hN : (N : Int) < 2 ^ 31) (k i : Nat) (hk : k < N) (hik : i ≠ k) (h : Heap)
    (sel : func_index_pair) (isz : Int)
    (hinv : record_filled h mem (N : Int) prodfunc sumfunc i sel isz) :
    record_filled
      (fill_body loop_addr prodfunc sumfunc pairs itemsizes mem (N : Int) (k : Int) h)
      mem (N : Int) prodfunc sumfunc i sel isz := by
  obtain ⟨hptrs, hdata, _⟩ := layout_no_wrap mem N hN
  obtain ⟨g1, g2, g3, g4, g5⟩ := hinv
  simp only [record_filled, fill_body, hdata, hptrs, gendot_funcs,
    sizeof_ptr, sizeof_gendot_data_t, offsetof_prodfunc_loop,
    offsetof_prodfunc_loop_data, offsetof_sumfunc_loop, offsetof_sumfunc_loop_data,
    offsetof_sumfunc_loop_itemsize] at g1 g2 g3 g4 g5 ⊢
  push_cast at g1 g2 g3 g4 g5 ⊢
  refine ⟨?_, ?_, ?_, ?_, ?_⟩
  · rw [store_cell_ne _ _ _ _ _ (by omega), store_cell_ne _ _ _ _ _ (by omega),
      store_cell_ne _ _ _ _ _ (by omega), store_cell_ne _ _ _ _ _ (by omega),
      store_cell_ne _ _ _ _ _ (by omega), store_cell_ne _ _ _ _ _ (by omega),
      store_cell_ne _ _ _ _ _ (by omega)]; exact g1
  · rw [store_cell_ne _ _ _ _ _ (by omega), store_cell_ne _ _ _ _ _ (by omega),
      store_cell_ne _ _ _ _ _ (by omega), store_cell_ne _ _ _ _ _ (by omega),
      store_cell_ne _ _ _ _ _ (by omega), store_cell_ne _ _ _ _ _ (by omega),
      store_cell_ne _ _ _ _ _ (by omega)]; exact g2
  · rw [store_cell_ne _ _ _ _ _ (by omega), store_cell_ne _ _ _ _ _ (by omega),
      store_cell_ne _ _ _ _ _ (by omega), store_cell_ne _ _ _ _ _ (by omega),
      store_cell_ne _ _ _ _ _ (by omega), store_cell_ne _ _ _ _ _ (by omega),
      store_cell_ne _ _ _ _ _ (by omega)]; exact g3
  · rw [store_cell_ne _ _ _ _ _ (by omega), store_cell_ne _ _ _ _ _ (by omega),
      store_cell_ne _ _ _ _ _ (by omega), store_cell_ne _ _ _ _ _ (by omega),
      store_cell_ne _ _ _ _ _ (by omega), store_cell_ne _ _ _ _ _ (by omega),
      store_cell_ne _ _ _ _ _ (by omega)]; exact g4
  · rw [store_cell_ne _ _ _ _ _ (by omega), store_cell_ne _ _ _ _ _ (by omega),
      store_cell_ne _ _ _ _ _ (by omega), store_cell_ne _ _ _ _ _ (by omega),
      store_cell_ne _ _ _ _ _ (by omega), store_cell_ne _ _ _ _ _ (by omega),
      store_cell_ne _ _ _ _ _ (by omega)]; exact g5

theorem fill_loop_records (loop_addr : Int) (prodfunc sumfunc : PyUFuncObject)
    (pairs : List func_index_pair) (itemsizes : List Int) (mem : Int) (N : Nat)
    (hN : (N : Int) < 2 ^ 31) :
    ∀ (r k fuel : Nat) (h : Heap), r ≤ fuel → k + r = N →
      (∀ i : Nat, i < k → record_filled h mem (N : Int) prodfunc sumfunc i
        (pairs.getD i ⟨0, 0⟩) (itemsizes.getD i 0)) →
      ∃ h2, fill_loop loop_addr prodfunc sumfunc pairs itemsizes mem (N : Int) fuel (k : Int) h
          = some h2 ∧
        ∀ i : Nat, i < N → record_filled h2 mem (N : Int) prodfunc sumfunc i
          (pairs.getD i ⟨0, 0⟩) (itemsizes.getD i 0) := by
  intro r
  induction r with
  | zero =>
    intro k fuel h _ hk hinv
    have hkN : ¬ ((k : Int) < (N : Int)) := by omega
    have hkeq : k = N := by omega
    subst hkeq
    refine ⟨h, ?_, hinv⟩
    cases fuel with
    | zero => rw [fill_loop, if_neg hkN]
    | succ fuel => rw [fill_loop, if_neg hkN]
  | succ r ih =>
    intro k fuel h hfuel hk hinv
    obtain ⟨fuel, rfl⟩ : ∃ g, fuel = g + 1 := ⟨fuel - 1, by omega⟩
    have hkN : (k : Int) < (N : Int) := by omega
    have hw : wrapInt ((k : Int) + 1) = ((k + 1 : Nat) : Int) := by
      rw [wrapInt_of_range] <;> push_cast <;> omega
    have hstep : ∀ i : Nat, i < k + 1 → record_filled
        (fill_body loop_addr prodfunc sumfunc pairs itemsizes mem (N : Int) (k : Int) h)
        mem (N : Int) prodfunc sumfunc i (pairs.getD i ⟨0, 0⟩) (itemsizes.getD i 0) := by
      intro i hi
      by_cases hik : i = k
      · rw [hik]
        exact fill_body_record_same loop_addr prodfunc sumfunc pairs itemsizes mem N hN k
          (by omega) h
      · exact fill_body_record_other loop_addr prodfunc sumfunc pairs itemsizes mem N hN k i
          (by omega) hik h _ _ (hinv i (by omega))
    obtain ⟨h2, e1, e2⟩ := ih (k + 1) fuel
      (fill_body loop_addr prodfunc sumfunc pairs itemsizes mem (N : Int) (k : Int) h)
      (by omega) (by omega) hstep
    refine ⟨h2, ?_, e2⟩
    rw [fill_loop, if_pos hkN, hw]
    exact e1

/-! ## Claim C8 -/

theorem fill_loop_diverges (loop_addr : Int) (prodfunc sumfunc : PyUFuncObject)
    (pairs : List func_index_pair) (itemsizes : List Int) (mem nloops : Int)
    (hn : 2 ^ 31 ≤ nloops) :
    ∀ (fuel : Nat) (i : Int) (h : Heap), i < 2 ^ 31 →
      fill_loop loop_addr prodfunc sumfunc pairs itemsizes mem nloops fuel i h = none := by
  intro fuel
  induction fuel with
  | zero =>
    intro i h hi
    have : i < nloops := by omega
    rw [fill_loop, if_pos this]
  | succ fuel ih =>
    intro i h hi
    have : i < nloops := by omega
    rw [fill_loop, if_pos this]
    exact ih _ _ (wrapInt_range _).2

/-- C8 fails as stated: with `2^31` overloads the fill loop never returns, whatever the
fuel, so no filled record array is ever delivered. -/
theorem gendot_fill_two_pow_31_never_returns :
    ¬ ∃ fuel : Nat, (gendot_fill 9999 fuel [103] [100] exProd exSum exIdxHuge exTypesHuge
      exSizesHuge 5000).isSome = true := by
  rintro ⟨fuel, h⟩
  have hlen0 : exIdxHuge.data.length = 2 ^ 31 := List.length_replicate _ _
  have hlen : ((exIdxHuge.data.length : Nat) : Int) = 2 ^ 31 := by
    rw [hlen0]; norm_num
  have := fill_loop_diverges 9999 exProd exSum exIdxHuge.data exSizesHuge.data 5000
    (exIdxHuge.data.length : Int) (by rw [hlen]) fuel 0
    (fill_copies 5000 (exIdxHuge.data.length : Int) [103] [100] exTypesHuge.data Heap.empty)
    (by norm_num)
  simp only [gendot_fill] at h
  rw [this] at h
  exact absurd h (by simp)

/-- C8 (amended).  For every `nloops ≤ 2^31 - 1` and enough fuel the fill phase returns,
and for every `i < nloops` record `i` of the block holds the loop function and closure
pointer of the combine operator at index `selectors[i].prod_index`, those of the
reduce operator at index `selectors[i].sum_index`, and the item size `itemsizes[i]`
(array reads written with `getD`: inside the array they are the element). -/
theorem gendot_fill_records (loop_addr : Int) (fuel : Nat) (name doc : List Nat)
    (prodfunc sumfunc : PyUFuncObject) (loop_indices : NpyArray func_index_pair)
    (typecodes : NpyArray Nat) (itemsizes : NpyArray Int) (mem : Int)
    (hN : loop_indices.data.length < 2 ^ 31) (hfuel : loop_indices.data.length ≤ fuel) :
    ∃ h, gendot_fill loop_addr fuel name doc prodfunc sumfunc loop_indices typecodes
        itemsizes mem = some h ∧
      ∀ i : Nat, i < loop_indices.data.length →
        record_filled h mem (loop_indices.data.length : Int) prodfunc sumfunc i
          (loop_indices.data.getD i ⟨0, 0⟩) (itemsizes.data.getD i 0) := by
  have := fill_loop_records loop_addr prodfunc sumfunc loop_indices.data itemsizes.data mem
    loop_indices.data.length (by exact_mod_cast hN) loop_indices.data.length 0 fuel
    (fill_copies mem (loop_indices.data.length : Int) name doc typecodes.data Heap.empty)
    hfuel (by omega) (fun i hi => absurd hi (Nat.not_lt_zero i))
  simpa [gendot_fill] using this

/-- Witness of C8 (amended): two overloads with selectors `(2, 0)` and `(0, 1)`. -/
theorem gendot_fill_records_witness :
    ∃ h, gendot_fill 9999 2 [103] [100] exProd exSum exIdx exTypes exSizes 5000 = some h ∧
      ∀ i : Nat, i < exIdx.data.length →
        record_filled h 5000 (exIdx.data.length : Int) exProd exSum i
          (exIdx.data.getD i ⟨0, 0⟩) (exSizes.data.getD i 0) :=
  gendot_fill_records 9999 2 [103] [100] exProd exSum exIdx exTypes exSizes 5000
    (by decide) (by decide)

theorem gendot_fill_returns (loop_addr : Int) (fuel : Nat) (name doc : List Nat)
    (prodfunc sumfunc : PyUFuncObject) (loop_indices : NpyArray func_index_pair)
    (typecodes : NpyArray Nat) (itemsizes : NpyArray Int) (mem : Int)
    (hN : loop_indices.data.length < 2 ^ 31) (hfuel : loop_indices.data.length ≤ fuel) :
    ∃ h, gendot_fill loop_addr fuel name doc prodfunc sumfunc loop_indices typecodes
      itemsizes mem = some h := by
  obtain ⟨h, e, _⟩ := fill_loop_records loop_addr prodfunc sumfunc loop_indices.data
    itemsizes.data mem loop_indices.data.length (by exact_mod_cast hN)
    loop_indices.data.length 0 fuel
    (fill_copies mem (loop_indices.data.length : Int) name doc typecodes.data Heap.empty)
    hfuel (by omega) (fun i hi => absurd hi (Nat.not_lt_zero i))
  exact ⟨h, by simpa [gendot_fill] using e⟩

/-! ## Claim C9 -/

theorem storeBytes_upto (h : Heap) (dest : Int) (src : List Nat) :
    ∀ n : Nat,
      (∀ k : Nat, k < n →
        (storeBytes h dest src n).cell (dest + (k : Int)) = some (Val.byte (src.getD k 0))) ∧
      (∀ a : Int, (a < dest ∨ dest + (n : Int) ≤ a) → (storeBytes h dest src n).cell a = h.cell a) ∧
      (storeBytes h dest src n).stores = h.stores ++ (List.range n).map
        (fun (k : Nat) => { addr := dest + (k : Int), size := 1, val := Val.byte (src.getD k 0) }) := by
  intro n
  induction n with
  | zero => exact ⟨fun k hk => absurd hk (Nat.not_lt_zero k), fun a _ => rfl, by simp [storeBytes]⟩
  | succ n ih =>
    obtain ⟨ih1, ih2, ih3⟩ := ih
    have hstep : storeBytes h dest src (n + 1)
        = (storeBytes h dest src n).store (dest + (n : Int)) 1 (Val.byte (src.getD n 0)) := by
      simp only [storeBytes, List.range_succ, List.foldl_append, List.foldl_cons, List.foldl_nil]
    rw [hstep]
    refine ⟨?_, ?_, ?_⟩
    · intro k hk
      simp only [Heap.store]
      by_cases hkn : k = n
      · subst hkn; rw [if_pos rfl]
      · rw [if_neg (by omega)]
        exact ih1 k (by omega)
    · intro a ha
      simp only [Heap.store]
      rw [if_neg (by omega)]
      exact ih2 a (by omega)
    · simp only [Heap.store, ih3, List.range_succ, List.map_append, List.map_cons, List.map_nil,
        List.append_assoc]

theorem fill_copies_typecodes (mem nloops : Int) (name doc typecodes : List Nat) (h : Heap)
    (k : Nat) (hk : k < sizeof_gendot_typecodes nloops) :
    (fill_copies mem nloops name doc typecodes h).cell (gendot_typecodes mem nloops + (k : Int))
      = some (Val.byte (typecodes.getD k 0)) := by
  have hname : gendot_name mem nloops
      = gendot_typecodes mem nloops + (sizeof_gendot_typecodes nloops : Int) := rfl
  have hdoc : gendot_doc mem nloops name
      = gendot_name mem nloops + (addSizeT (strlen name) 1 : Int) := rfl
  unfold fill_copies strcpy
  rw [(storeBytes_upto _ _ _ _).2.1 _ (by left; rw [hdoc, hname]; omega),
    (storeBytes_upto _ _ _ _).2.1 _ (by left; rw [hname]; omega)]
  exact (storeBytes_upto _ _ _ _).1 k hk

theorem fill_body_above (loop_addr : Int) (prodfunc sumfunc : PyUFuncObject)
    (pairs : List func_index_pair) (itemsizes : List Int) (mem : Int) (N : Nat)
    (hN : (N : Int) < 2 ^ 31) (i : Nat) (hi : i < N) (h : Heap) (a : Int)
    (ha : gendot_typecodes mem (N : Int) ≤ a) :
    (fill_body loop_addr prodfunc sumfunc pairs itemsizes mem (N : Int) (i : Int) h).cell a
      = h.cell a := by
  obtain ⟨hptrs, hdata, htc⟩ := layout_no_wrap mem N hN
  rw [htc] at ha
  simp only [fill_body, hdata, hptrs, gendot_funcs, sizeof_ptr, sizeof_gendot_data_t,
    offsetof_prodfunc_loop, offsetof_prodfunc_loop_data, offsetof_sumfunc_loop,
    offsetof_sumfunc_loop_data, offsetof_sumfunc_loop_itemsize]
  push_cast
  rw [store_cell_ne _ _ _ _ _ (by omega), store_cell_ne _ _ _ _ _ (by omega),
    store_cell_ne _ _ _ _ _ (by omega), store_cell_ne _ _ _ _ _ (by omega),
    store_cell_ne _ _ _ _ _ (by omega), store_cell_ne _ _ _ _ _ (by omega),
    store_cell_ne _ _ _ _ _ (by omega)]

theorem fill_loop_above (loop_addr : Int) (prodfunc sumfunc : PyUFuncObject)
    (pairs : List func_index_pair) (itemsizes : List Int) (mem : Int) (N : Nat)
    (hN : (N : Int) < 2 ^ 31) (a : Int) (ha : gendot_typecodes mem (N : Int) ≤ a) :
    ∀ (fuel k : Nat) (h h2 : Heap), k ≤ N →
      fill_loop loop_addr prodfunc sumfunc pairs itemsizes mem (N : Int) fuel (k : Int) h
        = some h2 → h2.cell a = h.cell a := by
  intro fuel
  induction fuel with
  | zero =>
    intro k h h2 _ hr
    by_cases hk : (k : Int) < (N : Int)
    · rw [fill_loop, if_pos hk] at hr; exact absurd hr (by simp)
    · rw [fill_loop, if_neg hk] at hr
      rw [← Option.some.inj hr]
  | succ fuel ih =>
    intro k h h2 hkN hr
    by_cases hk : (k : Int) < (N : Int)
    · rw [fill_loop, if_pos hk] at hr
      have hw : wrapInt ((k : Int) + 1) = ((k + 1 : Nat) : Int) := by
        rw [wrapInt_of_range] <;> push_cast <;> omega
      rw [hw] at hr
      rw [ih (k + 1) _ h2 (by omega) hr]
      exact fill_body_above loop_addr prodfunc sumfunc pairs itemsizes mem N hN k (by omega) h a ha
    · rw [fill_loop, if_neg hk] at hr
      rw [← Option.some.inj hr]

/-- C9 fails as stated: with `2^31` overloads and their `3 * 2^31` type codes the size
of the copy is `3 * 2^31`, but the fill loop that follows the copy never returns,
whatever the fuel: no block with its type table is delivered. -/
theorem gendot_fill_two_pow_31_no_type_table :
    exTypesHuge.data.length = 3 * exIdxHuge.data.length ∧
    sizeof_gendot_typecodes (exIdxHuge.data.length : Int) = 3 * 2 ^ 31 ∧
    ∀ fuel : Nat, gendot_fill 9999 fuel [103] [100] exProd exSum exIdxHuge exTypesHuge
      exSizesHuge 5000 = none := by
  have hI : exIdxHuge.data.length = 2 ^ 31 := List.length_replicate _ _
  have hT : exTypesHuge.data.length = 3 * 2 ^ 31 := List.length_replicate _ _
  have hlen : ((exIdxHuge.data.length : Nat) : Int) = 2 ^ 31 := by
    rw [hI]; norm_num
  refine ⟨by rw [hT, hI], ?_, ?_⟩
  · rw [hlen]; decide
  · intro fuel
    exact fill_loop_diverges 9999 exProd exSum exIdxHuge.data exSizesHuge.data 5000
      (exIdxHuge.data.length : Int) (by rw [hlen]) fuel 0
      (fill_copies 5000 (exIdxHuge.data.length : Int) [103] [100] exTypesHuge.data Heap.empty)
      (by norm_num)

/-- C9 (amended).  For every `nloops ≤ 2^31 - 1` and every type-code array of
`3 * nloops` bytes: the memcpy of line 243 copies exactly `3 * nloops` bytes; after
the three copies that precede the fill loop, byte `3*i + c` of the block's type table
is input type code `3*i + c` for every `i < nloops` and `c < 3`; and with enough fuel
the fill phase returns a block in which the same holds, the fill loop having left
the type table as it is; each of these type codes is an element of the input array. -/
theorem typecodes_copied (loop_addr : Int) (fuel : Nat) (name doc : List Nat)
    (prodfunc sumfunc : PyUFuncObject) (loop_indices : NpyArray func_index_pair)
    (typecodes : NpyArray Nat) (itemsizes : NpyArray Int) (mem : Int)
    (hlen : typecodes.data.length = 3 * loop_indices.data.length)
    (hN : loop_indices.data.length < 2 ^ 31) (hfuel : loop_indices.data.length ≤ fuel) :
    sizeof_gendot_typecodes (loop_indices.data.length : Int) = 3 * loop_indices.data.length ∧
    (storeBytes Heap.empty (gendot_typecodes mem (loop_indices.data.length : Int))
      typecodes.data (sizeof_gendot_typecodes (loop_indices.data.length : Int))).stores.length
        = 3 * loop_indices.data.length ∧
    (∀ i c : Nat, i < loop_indices.data.length → c < 3 →
      (fill_copies mem (loop_indices.data.length : Int) name doc typecodes.data Heap.empty).cell
          (gendot_typecodes mem (loop_indices.data.length : Int) + ((3 * i + c : Nat) : Int))
        = some (Val.byte (typecodes.data.getD (3 * i + c) 0))) ∧
    (∃ h : Heap,
      gendot_fill loop_addr fuel name doc prodfunc sumfunc loop_indices typecodes itemsizes mem
        = some h ∧
      ∀ i c : Nat, i < loop_indices.data.length → c < 3 →
        3 * i + c < typecodes.data.length ∧
        h.cell (gendot_typecodes mem (loop_indices.data.length : Int)
            + ((3 * i + c : Nat) : Int))
          = some (Val.byte (typecodes.data.getD (3 * i + c) 0))) := by
  have hsize : sizeof_gendot_typecodes (loop_indices.data.length : Int)
      = 3 * loop_indices.data.length := by
    have h2 : toIntp ((loop_indices.data.length : Int) * 3)
        = ((3 * loop_indices.data.length : Nat) : Int) := by
      rw [toIntp_of_range] <;> push_cast <;> omega
    have h3 : toSizeT ((3 * loop_indices.data.length : Nat) : Int)
        = 3 * loop_indices.data.length := toSizeT_natCast _ (by omega)
    simp only [sizeof_gendot_typecodes, h2, h3, mulSizeT]
    omega
  have hcopies : ∀ i c : Nat, i < loop_indices.data.length → c < 3 →
      (fill_copies mem (loop_indices.data.length : Int) name doc typecodes.data Heap.empty).cell
          (gendot_typecodes mem (loop_indices.data.length : Int) + ((3 * i + c : Nat) : Int))
        = some (Val.byte (typecodes.data.getD (3 * i + c) 0)) := by
    intro i c hi hc
    exact fill_copies_typecodes mem _ name doc typecodes.data Heap.empty (3 * i + c)
      (by rw [hsize]; omega)
  have hNi : ((loop_indices.data.length : Nat) : Int) < 2 ^ 31 := by exact_mod_cast hN
  obtain ⟨h, hret⟩ := gendot_fill_returns loop_addr fuel name doc prodfunc sumfunc loop_indices
    typecodes itemsizes mem hN hfuel
  refine ⟨hsize, ?_, hcopies, h, hret, ?_⟩
  · rw [(storeBytes_upto _ _ _ _).2.2, hsize]
    simp [Heap.empty]
  · intro i c hi hc
    refine ⟨by omega, ?_⟩
    simp only [gendot_fill] at hret
    rw [fill_loop_above loop_addr prodfunc sumfunc loop_indices.data itemsizes.data mem
      loop_indices.data.length hNi _ (by omega) fuel 0 _ h (by omega)
      (by simpa using hret)]
    exact hcopies i c hi hc

/-- Witness of C9 (amended): two overloads, six type codes; the fill phase returns and
the last type byte of the block is the last input type code. -/
theorem typecodes_copied_witness :
    ∃ h : Heap,
      gendot_fill 9999 2 [103] [100] exProd exSum exIdx exTypes exSizes 5000 = some h ∧
      h.cell (gendot_typecodes 5000 (exIdx.data.length : Int) + ((3 * 1 + 2 : Nat) : Int))
        = some (Val.byte (exTypes.data.getD (3 * 1 + 2) 0)) :=
  match (typecodes_copied 9999 2 [103] [100] exProd exSum exIdx exTypes exSizes 5000 rfl
    (by decide) (by decide)).2.2.2 with
  | ⟨h, hret, hc⟩ => ⟨h, hret, (hc 1 2 (by decide) (by decide)).2⟩

/-! ## Claim C10 -/

/-- C10 fails as stated: with `nloops = 2^61` and empty name and doc strings the sizes of
the three pointer-sized tables wrap to 0 in `size_t`, and the block size computed is
`3 * 2^61 + 2`, not the sum of the sizes of the six regions. -/
theorem total_memory_required_wraps :
    total_memory_required (2 ^ 61) [] []
      ≠ 2 ^ 61 * sizeof_ptr + 2 ^ 61 * sizeof_ptr + 2 ^ 61 * sizeof_gendot_data_t + 3 * 2 ^ 61
        + (0 + 1) + (0 + 1) := by
  decide

/-- C10 (amended).  For every `nloops ≥ 0` and every name and doc string for which the
sum `nloops*P + nloops*P + nloops*R + 3*nloops + (len(name)+1) + (len(doc)+1)` is
below `2^64`: the block size computed by the builder is that sum; the six regions have
the sizes `nloops*P`, `nloops*P`, `nloops*R`, `3*nloops`, `len(name)+1`,
`len(doc)+1`; the first starts at the block's start, each other one starts where the
one before it ends, the last ends at the block's end; and they are pairwise
disjoint. -/
theorem block_layout_exact (mem : Int) (n : Nat) (name doc : List Nat)
    (hfit : n * sizeof_ptr + n * sizeof_ptr + n * sizeof_gendot_data_t + 3 * n
      + (name.length + 1) + (doc.length + 1) < 2 ^ 64) :
    total_memory_required (n : Int) name doc
      = n * sizeof_ptr + n * sizeof_ptr + n * sizeof_gendot_data_t + 3 * n
        + (name.length + 1) + (doc.length + 1) ∧
    (block_regions mem (n : Int) name doc).map Prod.snd
      = [n * sizeof_ptr, n * sizeof_ptr, n * sizeof_gendot_data_t, 3 * n,
         name.length + 1, doc.length + 1] ∧
    gendot_funcs mem = mem ∧
    gendot_data_ptrs mem (n : Int) = gendot_funcs mem + ((n * sizeof_ptr : Nat) : Int) ∧
    gendot_data mem (n : Int) = gendot_data_ptrs mem (n : Int) + ((n * sizeof_ptr : Nat) : Int) ∧
    gendot_typecodes mem (n : Int)
      = gendot_data mem (n : Int) + ((n * sizeof_gendot_data_t : Nat) : Int) ∧
    gendot_name mem (n : Int) = gendot_typecodes mem (n : Int) + ((3 * n : Nat) : Int) ∧
    gendot_doc mem (n : Int) name = gendot_name mem (n : Int) + ((name.length + 1 : Nat) : Int) ∧
    gendot_doc mem (n : Int) name + ((doc.length + 1 : Nat) : Int)
      = mem + ((total_memory_required (n : Int) name doc : Nat) : Int) ∧
    (block_regions mem (n : Int) name doc).Pairwise
      (fun a b => a.1 + ((a.2 : Nat) : Int) ≤ b.1) := by
  simp only [sizeof_ptr, sizeof_gendot_data_t] at hfit
  obtain ⟨hF, hP, hD, hT⟩ := sizes_no_wrap n (by omega)
  have hsn : addSizeT (strlen name) 1 = name.length + 1 := by
    simp only [addSizeT, strlen, toSizeT_natCast name.length (by omega)]; omega
  have hsd : addSizeT (strlen doc) 1 = doc.length + 1 := by
    simp only [addSizeT, strlen, toSizeT_natCast doc.length (by omega)]; omega
  have e1 : addSizeT (8 * n) (8 * n) = 16 * n := by unfold addSizeT; omega
  have e2 : addSizeT (16 * n) (40 * n) = 56 * n := by unfold addSizeT; omega
  have e3 : addSizeT (56 * n) (3 * n) = 59 * n := by unfold addSizeT; omega
  have e4 : addSizeT (59 * n) (name.length + 1) = 59 * n + (name.length + 1) := by
    unfold addSizeT; omega
  have e5 : addSizeT (59 * n + (name.length + 1)) (doc.length + 1)
      = 59 * n + (name.length + 1) + (doc.length + 1) := by
    unfold addSizeT; omega
  have htot : total_memory_required (n : Int) name doc
      = 59 * n + (name.length + 1) + (doc.length + 1) := by
    simp only [total_memory_required, hF, hP, hD, hT, hsn, hsd, e1, e2, e3, e4, e5]
  have p2 : gendot_data_ptrs mem (n : Int) = mem + 8 * (n : Int) := by
    simp only [gendot_data_ptrs, hF]; push_cast; ring
  have p3 : gendot_data mem (n : Int) = mem + 16 * (n : Int) := by
    simp only [gendot_data, hF, hP]; push_cast; ring
  have p4 : gendot_typecodes mem (n : Int) = mem + 56 * (n : Int) := by
    simp only [gendot_typecodes, hF, hP, hD]; push_cast; ring
  have p5 : gendot_name mem (n : Int) = mem + 59 * (n : Int) := by
    simp only [gendot_name, hF, hP, hD, hT]; push_cast; ring
  have p6 : gendot_doc mem (n : Int) name = mem + 59 * (n : Int) + ((name.length : Int) + 1) := by
    simp only [gendot_doc, hF, hP, hD, hT, hsn]; push_cast; ring
  have hreg : block_regions mem (n : Int) name doc
      = [(mem, 8 * n), (mem + 8 * (n : Int), 8 * n), (mem + 16 * (n : Int), 40 * n),
         (mem + 56 * (n : Int), 3 * n), (mem + 59 * (n : Int), name.length + 1),
         (mem + 59 * (n : Int) + ((name.length : Int) + 1), doc.length + 1)] := by
    simp only [block_regions, gendot_funcs, p2, p3, p4, p5, p6, hF, hP, hD, hT, hsn, hsd]
  refine ⟨?_, ?_, ?_, ?_, ?_, ?_, ?_, ?_, ?_, ?_⟩
  · rw [htot]; simp only [sizeof_ptr, sizeof_gendot_data_t]; omega
  · rw [hreg]
    simp only [List.map_cons, List.map_nil, sizeof_ptr, sizeof_gendot_data_t,
      Nat.mul_comm n 8, Nat.mul_comm n (5 * 8)]
  · rfl
  · rw [p2]; simp only [gendot_funcs, sizeof_ptr]; push_cast; ring
  · rw [p3, p2]; simp only [sizeof_ptr]; push_cast; ring
  · rw [p4, p3]; simp only [sizeof_gendot_data_t, sizeof_ptr]; push_cast; ring
  · rw [p5, p4]; push_cast; ring
  · rw [p6, p5]; push_cast; ring
  · rw [p6, htot]; push_cast; ring
  · rw [hreg]
    simp only [List.pairwise_cons, List.mem_cons, List.mem_singleton, List.not_mem_nil,
      List.Pairwise.nil, and_true]
    refine ⟨?_, ?_, ?_, ?_, ?_, ?_⟩
    all_goals
      intro a ha
      rcases ha with rfl | rfl | rfl | rfl | rfl | ha
      all_goals first
        | (exfalso; exact ha)
        | (push_cast; omega)

/-- Witness of C10 (amended): two overloads, a one-character name and a one-character
documentation string; the block has `2*8 + 2*8 + 2*40 + 3*2 + 2 + 2 = 122` bytes. -/
theorem block_layout_exact_witness :
    total_memory_required ((2 : Nat) : Int) [103] [100] = 122 ∧
      gendot_doc 5000 ((2 : Nat) : Int) [103] + (([100].length + 1 : Nat) : Int)
        = 5000 + ((total_memory_required ((2 : Nat) : Int) [103] [100] : Nat) : Int) :=
  ⟨(block_layout_exact 5000 2 [103] [100] (by decide)).1,
   (block_layout_exact 5000 2 [103] [100] (by decide)).2.2.2.2.2.2.2.2.1⟩

/-! ## Claims C11 and C12 -/

/-- C11.  When `PyArray_malloc` fails, `gendot` returns the out-of-memory failure, for
every input and every amount of fuel; nothing has been stored (no table entry, no
string), and the request to the allocator is the only action performed: no
registration call is made. -/
theorem gendot_alloc_failure (loop_addr : Int) (PyArray_malloc : Nat → Option Int)
    (FromFuncAndDataAndSignature : Registration → Option Int) (fuel : Nat)
    (name doc : Int) (name_chars doc_chars : List Nat) (prodfunc sumfunc : PyUFuncObject)
    (loop_indices : NpyArray func_index_pair) (typecodes : NpyArray Nat)
    (itemsizes : NpyArray Int)
    (hm : PyArray_malloc
      (total_memory_required (loop_indices.data.length : Int) name_chars doc_chars) = none) :
    ∃ out, gendot loop_addr PyArray_malloc FromFuncAndDataAndSignature fuel name doc
        name_chars doc_chars prodfunc sumfunc loop_indices typecodes itemsizes = some out ∧
      out.result = GendotResult.no_memory ∧
      out.heap.stores = [] ∧ (∀ a, out.heap.cell a = none) ∧
      out.events = [BuilderEvent.malloc
        (total_memory_required (loop_indices.data.length : Int) name_chars doc_chars) none] ∧
      registrations out.events = [] := by
  refine ⟨{ result := GendotResult.no_memory, heap := Heap.empty,
            events := [BuilderEvent.malloc
              (total_memory_required (loop_indices.data.length : Int) name_chars doc_chars)
              none] }, ?_, rfl, rfl, fun _ => rfl, rfl, rfl⟩
  simp only [gendot, hm]

/-- Witness of C11: two overloads and a failing allocator. -/
theorem gendot_alloc_failure_witness :
    ∃ out, gendot 9999 exNoMem exRuntime 2 100 200 [103] [100] exProd exSum exIdx exTypes
        exSizes = some out ∧
      out.result = GendotResult.no_memory ∧
      out.heap.stores = [] ∧ (∀ a, out.heap.cell a = none) ∧
      out.events = [BuilderEvent.malloc
        (total_memory_required (exIdx.data.length : Int) [103] [100]) none] ∧
      registrations out.events = [] :=
  gendot_alloc_failure 9999 exNoMem exRuntime 2 100 200 [103] [100] exProd exSum exIdx exTypes
    exSizes rfl

/-- C12.  Ownership of the block, from the actions of the builder: whenever the block
has been allocated at `mem` and `gendot` returns, then if the registration failed the
result is `NULL`, the block has been released exactly once and no operator holds it;
if the registration created the operator `obj`, the block has not been released and
`obj` is the one operator whose `ptr` holds it; in both cases exactly one of
"released once" and "owned by one operator" is true.  For at most `2^31 - 1`
overloads and enough fuel `gendot` does return. -/
theorem gendot_block_ownership (loop_addr : Int) (PyArray_malloc : Nat → Option Int)
    (FromFuncAndDataAndSignature : Registration → Option Int) (fuel : Nat)
    (name doc : Int) (name_chars doc_chars : List Nat) (prodfunc sumfunc : PyUFuncObject)
    (loop_indices : NpyArray func_index_pair) (typecodes : NpyArray Nat)
    (itemsizes : NpyArray Int) (mem : Int)
    (hm : PyArray_malloc
      (total_memory_required (loop_indices.data.length : Int) name_chars doc_chars)
        = some mem) :
    (∀ out, gendot loop_addr PyArray_malloc FromFuncAndDataAndSignature fuel name doc
        name_chars doc_chars prodfunc sumfunc loop_indices typecodes itemsizes = some out →
      (FromFuncAndDataAndSignature
          (gendot_registration mem (loop_indices.data.length : Int) name doc) = none →
        out.result = GendotResult.null ∧ releases out.events mem = 1 ∧
          owners out.events mem = []) ∧
      (∀ obj, FromFuncAndDataAndSignature
          (gendot_registration mem (loop_indices.data.length : Int) name doc) = some obj →
        out.result = GendotResult.gufunc obj ∧ releases out.events mem = 0 ∧
          owners out.events mem = [obj]) ∧
      releases out.events mem + (owners out.events mem).length = 1) ∧
    (loop_indices.data.length < 2 ^ 31 → loop_indices.data.length ≤ fuel →
      (gendot loop_addr PyArray_malloc FromFuncAndDataAndSignature fuel name doc
        name_chars doc_chars prodfunc sumfunc loop_indices typecodes itemsizes).isSome
          = true) := by
  constructor
  · intro out hret
    simp only [gendot, hm] at hret
    cases hf : gendot_fill loop_addr fuel name_chars doc_chars prodfunc sumfunc loop_indices
        typecodes itemsizes mem with
    | none => rw [hf] at hret; exact absurd hret (by simp)
    | some h =>
      rw [hf] at hret
      simp only at hret
      cases hr : FromFuncAndDataAndSignature
          (gendot_registration mem (loop_indices.data.length : Int) name doc) with
      | none =>
        rw [hr] at hret
        have ho := (Option.some.inj hret).symm
        subst ho
        simp [releases, owners]
      | some obj =>
        rw [hr] at hret
        have ho := (Option.some.inj hret).symm
        subst ho
        simp [releases, owners]
  · intro hN hfuel
    obtain ⟨h, hf⟩ := gendot_fill_returns loop_addr fuel name_chars doc_chars prodfunc sumfunc
      loop_indices typecodes itemsizes mem hN hfuel
    simp only [gendot, hm, hf]
    cases FromFuncAndDataAndSignature
      (gendot_registration mem (loop_indices.data.length : Int) name doc) <;> rfl

/-! ## Claims C13, C14, C15 and C20 -/

/-- Witness of C12: two overloads, a runtime that refuses the registration; the call
returns `NULL`, the block at 5000 has been released once and nothing owns it. -/
theorem gendot_block_ownership_witness :
    ∃ out, gendot 9999 exAlloc exRuntimeFail 2 100 200 [103] [100] exProd exSum exIdx exTypes
        exSizes = some out ∧
      out.result = GendotResult.null ∧ releases out.events 5000 = 1 ∧
        owners out.events 5000 = [] := by
  have h := gendot_block_ownership 9999 exAlloc exRuntimeFail 2 100 200 [103] [100] exProd
    exSum exIdx exTypes exSizes 5000 rfl
  have hs := h.2 (by decide) (by decide)
  obtain ⟨out, hout⟩ := Option.isSome_iff_exists.1 hs
  exact ⟨out, hout, (h.1 out hout).1 rfl⟩

/-- The registration call, in range: whenever the block has been allocated at `mem` and
`gendot` returns, exactly one registration call has been made, with the block's
dispatch table, closure-pointer table and type table, 2 inputs, 1 output, and, for
at most `2^31 - 1` overloads, `ntypes = nloops`. -/
theorem gendot_registers (loop_addr : Int) (PyArray_malloc : Nat → Option Int)
    (FromFuncAndDataAndSignature : Registration → Option Int) (fuel : Nat)
    (name doc : Int) (name_chars doc_chars : List Nat) (prodfunc sumfunc : PyUFuncObject)
    (loop_indices : NpyArray func_index_pair) (typecodes : NpyArray Nat)
    (itemsizes : NpyArray Int) (mem : Int)
    (hm : PyArray_malloc
      (total_memory_required (loop_indices.data.length : Int) name_chars doc_chars)
        = some mem)
    (out : Outcome)
    (hret : gendot loop_addr PyArray_malloc FromFuncAndDataAndSignature fuel name doc
        name_chars doc_chars prodfunc sumfunc loop_indices typecodes itemsizes = some out) :
    registrations out.events
        = [gendot_registration mem (loop_indices.data.length : Int) name doc] ∧
      (gendot_registration mem (loop_indices.data.length : Int) name doc).func
        = gendot_funcs mem ∧
      (gendot_registration mem (loop_indices.data.length : Int) name doc).data
        = gendot_data_ptrs mem (loop_indices.data.length : Int) ∧
      (gendot_registration mem (loop_indices.data.length : Int) name doc).types
        = gendot_typecodes mem (loop_indices.data.length : Int) ∧
      (gendot_registration mem (loop_indices.data.length : Int) name doc).nin = 2 ∧
      (gendot_registration mem (loop_indices.data.length : Int) name doc).nout = 1 ∧
      (gendot_registration mem (loop_indices.data.length : Int) name doc).ntypes
        = (loop_indices.data.length : Int) := by
  have hN : ((loop_indices.data.length : Nat) : Int) < 2 ^ 31 := by
    by_contra hcon
    have := fill_loop_diverges loop_addr prodfunc sumfunc loop_indices.data itemsizes.data mem
      (loop_indices.data.length : Int) (by omega) fuel 0
      (fill_copies mem (loop_indices.data.length : Int) name_chars doc_chars typecodes.data
        Heap.empty) (by norm_num)
    simp only [gendot, hm, gendot_fill] at hret
    rw [this] at hret
    exact absurd hret (by simp)
  refine ⟨?_, rfl, rfl, rfl, rfl, rfl, ?_⟩
  · simp only [gendot, hm] at hret
    cases hf : gendot_fill loop_addr fuel name_chars doc_chars prodfunc sumfunc loop_indices
        typecodes itemsizes mem with
    | none => rw [hf] at hret; exact absurd hret (by simp)
    | some h =>
      rw [hf] at hret
      simp only at hret
      cases hr : FromFuncAndDataAndSignature
          (gendot_registration mem (loop_indices.data.length : Int) name doc) with
      | none =>
        rw [hr] at hret
        have ho := (Option.some.inj hret).symm
        subst ho
        simp [registrations]
      | some obj =>
        rw [hr] at hret
        have ho := (Option.some.inj hret).symm
        subst ho
        simp [registrations]
  · simp only [gendot_registration]
    exact wrapInt_of_range _ (by omega) hN

/-- C13 (code defect, at two overloads named by the caller's strings at 100 and 200).
The one registration call that `gendot` makes carries the block's dispatch table
(5000), closure-pointer table (5016) and type table (5112), 2 overloads, 2 inputs and
1 output, but the signature string `(i),(i)->()`, which is not the string
`(n),(n)->()` of the docstring. -/
theorem gendot_registers_signature_i :
    (gendot 9999 exAlloc exRuntime 2 100 200 [103] [100] exProd exSum exIdx exTypes
        exSizes).map (fun o => registrations o.events)
      = some [{ func := 5000, data := 5016, types := 5112, ntypes := 2, nin := 2, nout := 1,
                identity := -1, name := 100, doc := 200, unused := 0,
                signature := "(i),(i)->()" }] ∧
    "(i),(i)->()" ≠ "(n),(n)->()" := by
  decide

/-- C20 (code defect, at the caller's name string at 100 and doc string at 200).  The
block at 5000 holds the null-terminated copies of the name (at 5118) and of the
documentation string (at 5120), but the registration call is handed the caller's
pointers 100 and 200, not the addresses of the copies. -/
theorem gendot_registers_caller_strings :
    (gendot 9999 exAlloc exRuntime 2 100 200 [103] [100] exProd exSum exIdx exTypes
        exSizes).map (fun o => (registrations o.events).map (fun r => (r.name, r.doc)))
      = some [(100, 200)] ∧
    gendot_name 5000 2 = 5118 ∧ gendot_doc 5000 2 [103] = 5120 ∧
    (gendot 9999 exAlloc exRuntime 2 100 200 [103] [100] exProd exSum exIdx exTypes
        exSizes).map (fun o => [o.heap.cell 5118, o.heap.cell 5119, o.heap.cell 5120,
          o.heap.cell 5121])
      = some [some (Val.byte 103), some (Val.byte 0), some (Val.byte 100),
          some (Val.byte 0)] := by
  decide

/-- The name and doc arguments of every registration are the caller's pointers. -/
theorem gendot_registration_strings (mem nloops name doc : Int) :
    (gendot_registration mem nloops name doc).name = name ∧
      (gendot_registration mem nloops name doc).doc = doc ∧
      (gendot_registration mem nloops name doc).signature = "(i),(i)->()" :=
  ⟨rfl, rfl, rfl⟩

/-- C14 (code defect at the failing input `n = 2^31`).  For every operator, stride and
state: the invocation made with `k = 2^31 - 1`, the `(n-1)`-th one, does not end the
loop of `reduce`, because `++k` takes the 32-bit counter to `-2^31` and the loop
goes on with the element at `data + stride`; and from `k = -2^31` the loop never
exits, whatever the fuel.  The operator is therefore not invoked exactly `n - 1`
times. -/
theorem reduce_loop_wraps_after_last_invocation {β : Type} (code : Int → LoopFn β)
    (loop_function loop_data data stride result : Int) (s : State β) (fuel : Nat) :
    reduce_loop code loop_function loop_data (2 ^ 31) stride result (fuel + 1) (2 ^ 31 - 1)
        data s
      = reduce_loop code loop_function loop_data (2 ^ 31) stride result fuel (-2 ^ 31)
          (data + stride)
          (invoke code loop_function [result, data, result] [1] [stride, stride, stride]
            loop_data s) ∧
    reduce_loop code loop_function loop_data (2 ^ 31) stride result fuel (-2 ^ 31) data s
      = none := by
  constructor
  · have hk : (2 ^ 31 - 1 : Int) < 2 ^ 31 := by norm_num
    have hw : wrapInt (2 ^ 31 - 1 + 1) = -2 ^ 31 := by decide
    rw [reduce_loop, if_pos hk, hw]
  · exact reduce_loop_diverges code loop_function loop_data (2 ^ 31) stride result (le_refl _)
      fuel (-2 ^ 31) data s (by norm_num)

/-- C15 (code defect at the failing input `innerLen = 2^61`, `itemsize = 8`).  The
product `2^61 * 8 = 2^64` wraps in `size_t`: the scratch buffer requested has 0
bytes, not `innerLen * itemsize`. -/
theorem scratch_size_wraps :
    scratch_size [1, 2 ^ 61] exData8 = 0 ∧ (2 ^ 61 * 8 : Nat) = 2 ^ 64 := by
  decide

/-- The scratch size is the product whenever the product fits `size_t`. -/
theorem scratch_size_exact (NL : Int) (d : gendot_data_t) (n sz : Nat)
    (hd : d.sumfunc_loop_itemsize = (sz : Int)) (hn : n < 2 ^ 63) (hsz : sz < 2 ^ 63)
    (hfit : n * sz < 2 ^ 64) :
    scratch_size [NL, (n : Int)] d = n * sz := by
  simp only [scratch_size, List.getD_cons_zero, List.getD_cons_succ, hd, mulSizeT,
    toSizeT_natCast n (by omega), toSizeT_natCast sz (by omega)]
  exact Nat.mod_eq_of_lt hfit

/-! ## Termination in range and claim C18 -/

theorem reduce_loop_returns {β : Type} (code : Int → LoopFn β)
    (f ld n stride result : Int) (hn : n < 2 ^ 31) :
    ∀ (r fuel : Nat) (k data : Int) (s : State β), r ≤ fuel → n ≤ k + (r : Int) →
      -2 ^ 31 ≤ k →
      (reduce_loop code f ld n stride result fuel k data s).isSome = true := by
  intro r
  induction r with
  | zero =>
    intro fuel k data s _ hk _
    have hkn : ¬ k < n := by push_cast at hk; omega
    cases fuel with
    | zero => rw [reduce_loop, if_neg hkn]; rfl
    | succ fuel => rw [reduce_loop, if_neg hkn]; rfl
  | succ r ih =>
    intro fuel k data s hfuel hk hk0
    obtain ⟨fuel, rfl⟩ : ∃ g, fuel = g + 1 := ⟨fuel - 1, by omega⟩
    by_cases hkn : k < n
    · rw [reduce_loop, if_pos hkn, wrapInt_of_range _ (by omega) (by omega)]
      exact ih fuel (k + 1) _ _ (by omega) (by push_cast at hk ⊢; omega) (by omega)
    · rw [reduce_loop, if_neg hkn]; rfl

theorem reduce_returns {β : Type} (code : Int → LoopFn β) (fuel : Nat)
    (f ld data n stride itemsize result : Int) (s : State β) (hn : n < 2 ^ 31)
    (hfuel : n ≤ (fuel : Int) + 1) :
    (reduce code fuel f ld data n stride itemsize result s).isSome = true := by
  unfold reduce
  by_cases h1 : n ≤ 0
  · rw [if_pos h1]; rfl
  · rw [if_neg h1]
    by_cases h2 : n = 1
    · simp only [if_pos h2]; rfl
    · simp only [if_neg h2]
      exact reduce_loop_returns code f ld n stride result hn (n - 1).toNat fuel 1 _ _
        (by omega) (by omega) (by norm_num)

theorem gendot_outer_returns {β : Type} (code : Int → LoopFn β) (rfuel : Nat)
    (dimensions steps : List Int) (d : gendot_data_t) (tmp : Int)
    (hNL : dimensions.getD 0 0 < 2 ^ 31) (hIL : dimensions.getD 1 0 < 2 ^ 31)
    (hrfuel : dimensions.getD 1 0 ≤ (rfuel : Int) + 1) :
    ∀ (r fuel : Nat) (j px py pout : Int) (s : State β), r ≤ fuel →
      dimensions.getD 0 0 ≤ j + (r : Int) → -2 ^ 31 ≤ j →
      (gendot_outer code rfuel dimensions steps d tmp fuel j px py pout s).isSome = true := by
  intro r
  induction r with
  | zero =>
    intro fuel j px py pout s _ hj _
    have hjn : ¬ j < dimensions.getD 0 0 := by push_cast at hj; omega
    cases fuel with
    | zero => rw [gendot_outer, if_neg hjn]; rfl
    | succ fuel => rw [gendot_outer, if_neg hjn]; rfl
  | succ r ih =>
    intro fuel j px py pout s hfuel hj hj0
    obtain ⟨fuel, rfl⟩ : ∃ g, fuel = g + 1 := ⟨fuel - 1, by omega⟩
    by_cases hjn : j < dimensions.getD 0 0
    · rw [gendot_outer, if_pos hjn]
      simp only
      have hred := reduce_returns code rfuel d.sumfunc_loop d.sumfunc_loop_data tmp
        (dimensions.getD 1 0) (toIntp (toSizeT d.sumfunc_loop_itemsize))
        (toIntp (toSizeT d.sumfunc_loop_itemsize)) pout
        (invoke code d.prodfunc_loop [px, py, tmp]
          [dimensions.getD 1 0, dimensions.getD 1 0, dimensions.getD 1 0]
          [steps.getD 3 0, steps.getD 4 0, toIntp (toSizeT d.sumfunc_loop_itemsize)]
          d.prodfunc_loop_data s) hIL hrfuel
      obtain ⟨s2, hs2⟩ := Option.isSome_iff_exists.1 hred
      rw [hs2]
      simp only
      rw [wrapInt_of_range _ (by omega) (by omega)]
      exact ih fuel (j + 1) _ _ _ _ (by omega) (by push_cast at hj ⊢; omega) (by omega)
    · rw [gendot_outer, if_neg hjn]; rfl

/-- In range the loops of `gendot_loop` terminate: for `nloops ≤ 2^31 - 1`,
`innerLen ≤ 2^31 - 1` and enough fuel, `gendot_loop` returns, whatever the loop
functions do. -/
theorem gendot_loop_returns {β : Type} (code : Int → LoopFn β) (malloc : Nat → Option Int)
    (fuel : Nat) (args dimensions steps : List Int) (d : gendot_data_t) (s : State β)
    (hNL : dimensions.getD 0 0 < 2 ^ 31) (hIL : dimensions.getD 1 0 < 2 ^ 31)
    (hf1 : dimensions.getD 0 0 ≤ (fuel : Int)) (hf2 : dimensions.getD 1 0 ≤ (fuel : Int) + 1) :
    (gendot_loop code malloc fuel args dimensions steps d s).isSome = true := by
  unfold gendot_loop
  by_cases h0 : dimensions.getD 1 0 = 0
  · rw [if_pos h0]; rfl
  · rw [if_neg h0]
    simp only
    cases hm : malloc (scratch_size dimensions d) with
    | none => rfl
    | some tmp =>
      simp only
      have := gendot_outer_returns code fuel dimensions steps d tmp hNL hIL hf2 fuel fuel 0
        (args.getD 0 0) (args.getD 1 0) (args.getD 2 0)
        { s with trace := s.trace ++ [Event.malloc (scratch_size dimensions d) (some tmp)] }
        (le_refl _) (by omega) (by norm_num)
      obtain ⟨s2, hs2⟩ := Option.isSome_iff_exists.1 this
      rw [hs2]
      rfl

/-- C18 (code defect at the failing inputs `nloops = 2^31` and `innerLen = 2^31`).  With
the counters `j` and `k` as 32-bit integers, for every pair of loop functions, every
input and every stride, when the scratch allocation succeeds: with `2^31` outer
entries of inner length 3 no amount of fuel makes `gendot_loop` return, and with 3
outer entries of inner length `2^31` none does either.  The outer loop does not exit
after `nloops` iterations, the loop of `reduce` not after `innerLen - 1`. -/
theorem gendot_loop_does_not_terminate {β : Type} (code : Int → LoopFn β) (tmp : Int)
    (args steps : List Int) (data : gendot_data_t) (s : State β) :
    (¬ ∃ fuel : Nat,
      (gendot_loop code (fun _ => some tmp) fuel args [2 ^ 31, 3] steps data s).isSome = true) ∧
    (¬ ∃ fuel : Nat,
      (gendot_loop code (fun _ => some tmp) fuel args [3, 2 ^ 31] steps data s).isSome
        = true) := by
  constructor
  · rintro ⟨fuel, h⟩
    rw [gendot_loop_diverges_outer code (fun _ => some tmp) fuel args [2 ^ 31, 3] steps data s
      tmp (by simp) rfl (by simp)] at h
    exact absurd h (by simp)
  · rintro ⟨fuel, h⟩
    rw [gendot_loop_diverges_inner code (fun _ => some tmp) fuel args [3, 2 ^ 31] steps data s
      tmp rfl (by simp) (by simp)] at h
    exact absurd h (by simp)

/-! ## Claim C16 -/

theorem fill_loop_invariant (loop_addr : Int) (prodfunc sumfunc : PyUFuncObject)
    (pairs : List func_index_pair) (itemsizes : List Int) (mem : Int) (N : Nat)
    (hN : (N : Int) < 2 ^ 31) (P : Heap → Nat → Prop)
    (hsame : ∀ (k : Nat) (h : Heap), k < N →
      P (fill_body loop_addr prodfunc sumfunc pairs itemsizes mem (N : Int) (k : Int) h) k)
    (hother : ∀ (k i : Nat) (h : Heap), k < N → i < N → i ≠ k → P h i →
      P (fill_body loop_addr prodfunc sumfunc pairs itemsizes mem (N : Int) (k : Int) h) i) :
    ∀ (r k fuel : Nat) (h : Heap), r ≤ fuel → k + r = N → (∀ i : Nat, i < k → P h i) →
      ∃ h2, fill_loop loop_addr prodfunc sumfunc pairs itemsizes mem (N : Int) fuel (k : Int) h
          = some h2 ∧ ∀ i : Nat, i < N → P h2 i := by
  intro r
  induction r with
  | zero =>
    intro k fuel h _ hk hinv
    have hkN : ¬ ((k : Int) < (N : Int)) := by omega
    have hkeq : k = N := by omega
    subst hkeq
    refine ⟨h, ?_, hinv⟩
    cases fuel with
    | zero => rw [fill_loop, if_neg hkN]
    | succ fuel => rw [fill_loop, if_neg hkN]
  | succ r ih =>
    intro k fuel h hfuel hk hinv
    obtain ⟨fuel, rfl⟩ : ∃ g, fuel = g + 1 := ⟨fuel - 1, by omega⟩
    have hkN : (k : Int) < (N : Int) := by omega
    have hw : wrapInt ((k : Int) + 1) = ((k + 1 : Nat) : Int) := by
      rw [wrapInt_of_range] <;> push_cast <;> omega
    have hstep : ∀ i : Nat, i < k + 1 →
        P (fill_body loop_addr prodfunc sumfunc pairs itemsizes mem (N : Int) (k : Int) h) i := by
      intro i hi
      by_cases hik : i = k
      · rw [hik]
        exact hsame k h (by omega)
      · exact hother k i h (by omega) (by omega) hik (hinv i (by omega))
    obtain ⟨h2, e1, e2⟩ := ih (k + 1) fuel
      (fill_body loop_addr prodfunc sumfunc pairs itemsizes mem (N : Int) (k : Int) h)
      (by omega) (by omega) hstep
    refine ⟨h2, ?_, e2⟩
    rw [fill_loop, if_pos hkN, hw]
    exact e1

theorem fill_body_tables_same (loop_addr : Int) (prodfunc sumfunc : PyUFuncObject)
    (pairs : List func_index_pair) (itemsizes : List Int) (mem : Int) (N : Nat)
    (hN : (N : Int) < 2 ^ 31) (k : Nat) (hk : k < N) (h : Heap) :
    tables_filled
      (fill_body loop_addr prodfunc sumfunc pairs itemsizes mem (N : Int) (k : Int) h)
      mem (N : Int) loop_addr k := by
  obtain ⟨hptrs, hdata, _⟩ := layout_no_wrap mem N hN
  simp only [tables_filled, fill_body, hdata, hptrs, gendot_funcs,
    sizeof_ptr, sizeof_gendot_data_t, offsetof_prodfunc_loop,
    offsetof_prodfunc_loop_data, offsetof_sumfunc_loop, offsetof_sumfunc_loop_data,
    offsetof_sumfunc_loop_itemsize]
  push_cast
  refine ⟨?_, ?_⟩
  · rw [store_cell_ne _ _ _ _ _ (by omega), store_cell_ne _ _ _ _ _ (by omega),
      store_cell_ne _ _ _ _ _ (by omega), store_cell_ne _ _ _ _ _ (by omega),
      store_cell_ne _ _ _ _ _ (by omega), store_cell_ne _ _ _ _ _ (by omega),
      store_cell_same]
  · rw [store_cell_same]

theorem fill_body_tables_other (loop_addr : Int) (prodfunc sumfunc : PyUFuncObject)
    (pairs : List func_index_pair) (itemsizes : List Int) (mem : Int) (N : Nat)
    (hN : (N : Int) < 2 ^ 31) (k i : Nat) (hk : k < N) (hi : i < N) (hik : i ≠ k) (h : Heap)
    (hinv : tables_filled h mem (N : Int) loop_addr i) :
    tables_filled
      (fill_body loop_addr prodfunc sumfunc pairs itemsizes mem (N : Int) (k : Int) h)
      mem (N : Int) loop_addr i := by
  obtain ⟨hptrs, hdata, _⟩ := layout_no_wrap mem N hN
  obtain ⟨g1, g2⟩ := hinv
  simp only [tables_filled, fill_body, hdata, hptrs, gendot_funcs,
    sizeof_ptr, sizeof_gendot_data_t, offsetof_prodfunc_loop,
    offsetof_prodfunc_loop_data, offsetof_sumfunc_loop, offsetof_sumfunc_loop_data,
    offsetof_sumfunc_loop_itemsize] at g1 g2 ⊢
  push_cast at g1 g2 ⊢
  refine ⟨?_, ?_⟩
  · rw [store_cell_ne _ _ _ _ _ (by omega), store_cell_ne _ _ _ _ _ (by omega),
      store_cell_ne _ _ _ _ _ (by omega), store_cell_ne _ _ _ _ _ (by omega),
      store_cell_ne _ _ _ _ _ (by omega), store_cell_ne _ _ _ _ _ (by omega),
      store_cell_ne _ _ _ _ _ (by omega)]; exact g1
  · rw [store_cell_ne _ _ _ _ _ (by omega), store_cell_ne _ _ _ _ _ (by omega),
      store_cell_ne _ _ _ _ _ (by omega), store_cell_ne _ _ _ _ _ (by omega),
      store_cell_ne _ _ _ _ _ (by omega), store_cell_ne _ _ _ _ _ (by omega),
      store_cell_ne _ _ _ _ _ (by omega)]; exact g2

/-- C16 fails as stated: with `2^31` overloads the fill loop never returns, so there is
no block whose dispatch and closure-pointer tables are filled, not even at entry 0. -/
theorem gendot_fill_two_pow_31_no_tables :
    ¬ ∃ (fuel : Nat) (h : Heap),
      gendot_fill 9999 fuel [103] [100] exProd exSum exIdxHuge exTypesHuge exSizesHuge 5000
        = some h ∧ tables_filled h 5000 (2 ^ 31) 9999 0 := by
  rintro ⟨fuel, h, hret, _⟩
  have hlen0 : exIdxHuge.data.length = 2 ^ 31 := List.length_replicate _ _
  have hlen : ((exIdxHuge.data.length : Nat) : Int) = 2 ^ 31 := by
    rw [hlen0]; norm_num
  have := fill_loop_diverges 9999 exProd exSum exIdxHuge.data exSizesHuge.data 5000
    (exIdxHuge.data.length : Int) (by rw [hlen]) fuel 0
    (fill_copies 5000 (exIdxHuge.data.length : Int) [103] [100] exTypesHuge.data Heap.empty)
    (by norm_num)
  simp only [gendot_fill] at hret
  rw [this] at hret
  exact absurd hret (by simp)

/-- C16 (amended).  For every `nloops ≤ 2^31 - 1` and enough fuel the fill phase returns
a block in which, for every `i < nloops`, dispatch-table entry `i` is the dispatcher
`gendot_loop` and closure pointer `i` is the address of record `i`, that is the
record array plus `i * sizeof(gendot_data_t)`; and the closure pointers of distinct
overloads are distinct. -/
theorem gendot_fill_tables (loop_addr : Int) (fuel : Nat) (name doc : List Nat)
    (prodfunc sumfunc : PyUFuncObject) (loop_indices : NpyArray func_index_pair)
    (typecodes : NpyArray Nat) (itemsizes : NpyArray Int) (mem : Int)
    (hN : loop_indices.data.length < 2 ^ 31) (hfuel : loop_indices.data.length ≤ fuel) :
    ∃ h, gendot_fill loop_addr fuel name doc prodfunc sumfunc loop_indices typecodes
        itemsizes mem = some h ∧
      (∀ i : Nat, i < loop_indices.data.length →
        tables_filled h mem (loop_indices.data.length : Int) loop_addr i) ∧
      (∀ i j : Nat, i < loop_indices.data.length → j < loop_indices.data.length → i ≠ j →
        gendot_data mem (loop_indices.data.length : Int)
            + (i : Int) * (sizeof_gendot_data_t : Int)
          ≠ gendot_data mem (loop_indices.data.length : Int)
            + (j : Int) * (sizeof_gendot_data_t : Int)) := by
  have hNi : ((loop_indices.data.length : Nat) : Int) < 2 ^ 31 := by exact_mod_cast hN
  obtain ⟨h, e1, e2⟩ := fill_loop_invariant loop_addr prodfunc sumfunc loop_indices.data
    itemsizes.data mem loop_indices.data.length hNi
    (fun h i => tables_filled h mem (loop_indices.data.length : Int) loop_addr i)
    (fun k h hk => fill_body_tables_same loop_addr prodfunc sumfunc loop_indices.data
      itemsizes.data mem _ hNi k hk h)
    (fun k i h hk hi hik hinv => fill_body_tables_other loop_addr prodfunc sumfunc
      loop_indices.data itemsizes.data mem _ hNi k i hk hi hik h hinv)
    loop_indices.data.length 0 fuel
    (fill_copies mem (loop_indices.data.length : Int) name doc typecodes.data Heap.empty)
    hfuel (by omega) (fun i hi => absurd hi (Nat.not_lt_zero i))
  refine ⟨h, by simpa [gendot_fill] using e1, e2, ?_⟩
  intro i j _ _ hij
  simp only [sizeof_gendot_data_t, sizeof_ptr]
  push_cast
  omega

/-- Witness of C16 (amended): two overloads. -/
theorem gendot_fill_tables_witness :
    ∃ h, gendot_fill 9999 2 [103] [100] exProd exSum exIdx exTypes exSizes 5000 = some h ∧
      (∀ i : Nat, i < exIdx.data.length →
        tables_filled h 5000 (exIdx.data.length : Int) 9999 i) ∧
      (∀ i j : Nat, i < exIdx.data.length → j < exIdx.data.length → i ≠ j →
        gendot_data 5000 (exIdx.data.length : Int) + (i : Int) * (sizeof_gendot_data_t : Int)
          ≠ gendot_data 5000 (exIdx.data.length : Int)
            + (j : Int) * (sizeof_gendot_data_t : Int)) :=
  gendot_fill_tables 9999 2 [103] [100] exProd exSum exIdx exTypes exSizes 5000
    (by decide) (by decide)

/-! ## Claim C17 -/

/-- Alignment for every `nloops`: with the base of the block aligned to the pointer
size, the dispatch table, the closure-pointer table, the record array and every
pointer-sized field of every record are aligned to the pointer size, and
`sizeof(gendot_data_t)` is five times the pointer size. -/
theorem block_alignment (mem nloops : Int) (hal : (sizeof_ptr : Int) ∣ mem) :
    (sizeof_ptr : Int) ∣ gendot_funcs mem ∧
    (sizeof_ptr : Int) ∣ gendot_data_ptrs mem nloops ∧
    (sizeof_ptr : Int) ∣ gendot_data mem nloops ∧
    sizeof_gendot_data_t = 5 * sizeof_ptr ∧
    (∀ i : Int,
      (sizeof_ptr : Int) ∣ gendot_data mem nloops + i * (sizeof_gendot_data_t : Int)
        + (offsetof_prodfunc_loop : Int) ∧
      (sizeof_ptr : Int) ∣ gendot_data mem nloops + i * (sizeof_gendot_data_t : Int)
        + (offsetof_prodfunc_loop_data : Int) ∧
      (sizeof_ptr : Int) ∣ gendot_data mem nloops + i * (sizeof_gendot_data_t : Int)
        + (offsetof_sumfunc_loop : Int) ∧
      (sizeof_ptr : Int) ∣ gendot_data mem nloops + i * (sizeof_gendot_data_t : Int)
        + (offsetof_sumfunc_loop_data : Int) ∧
      (sizeof_ptr : Int) ∣ gendot_data mem nloops + i * (sizeof_gendot_data_t : Int)
        + (offsetof_sumfunc_loop_itemsize : Int)) := by
  simp only [gendot_funcs, gendot_data_ptrs, gendot_data, sizeof_gendot_funcs,
    sizeof_gendot_data_ptrs, mulSizeT, sizeof_ptr, sizeof_gendot_data_t,
    offsetof_prodfunc_loop, offsetof_prodfunc_loop_data, offsetof_sumfunc_loop,
    offsetof_sumfunc_loop_data, offsetof_sumfunc_loop_itemsize] at hal ⊢
  push_cast at hal ⊢
  refine ⟨hal, ?_, ?_, trivial, ?_⟩
  · omega
  · omega
  · intro i
    refine ⟨?_, ?_, ?_, ?_, ?_⟩ <;> omega

/-- C17 fails as stated: with `nloops = 2^61` the sizes of the pointer-sized tables wrap
to 0 in `size_t`; the closure-pointer table is at offset 0, not `nloops * P`, and the
type table starts where record 0 starts, not after the records. -/
theorem block_layout_wraps_tables_overlap :
    gendot_data_ptrs 0 (2 ^ 61) = 0 ∧ (2 : Int) ^ 61 * (sizeof_ptr : Int) ≠ 0 ∧
      gendot_typecodes 0 (2 ^ 61) = gendot_data 0 (2 ^ 61) + 0 * (sizeof_gendot_data_t : Int) := by
  decide

/-- C17 (amended).  For every `nloops` and every name and doc string for which the block
size `nloops*P + nloops*P + nloops*R + 3*nloops + (len(name)+1) + (len(doc)+1)` is
below `2^64`, and every base address aligned to the pointer size `P`: the dispatch
table is at offset 0, the closure-pointer table at offset `nloops * P`, the record
array at offset `2 * nloops * P`, all multiples of `P`; `sizeof(gendot_data_t)` is
`5 * P`; every pointer-sized field of every record is `P`-aligned; and the byte-sized
tables come after the pointer-sized ones: the two pointer tables and every record end
at or before the start of the type table, at offset `nloops * (2*P + R)`, which is
followed by the name and the doc. -/
theorem block_tables_aligned_and_ordered (mem : Int) (n : Nat) (name doc : List Nat)
    (hal : (sizeof_ptr : Int) ∣ mem)
    (hfit : n * sizeof_ptr + n * sizeof_ptr + n * sizeof_gendot_data_t + 3 * n
      + (name.length + 1) + (doc.length + 1) < 2 ^ 64) :
    gendot_funcs mem = mem + 0 ∧
    gendot_data_ptrs mem (n : Int) = mem + (n : Int) * (sizeof_ptr : Int) ∧
    gendot_data mem (n : Int) = mem + 2 * (n : Int) * (sizeof_ptr : Int) ∧
    (sizeof_ptr : Int) ∣ gendot_funcs mem ∧
    (sizeof_ptr : Int) ∣ gendot_data_ptrs mem (n : Int) ∧
    (sizeof_ptr : Int) ∣ gendot_data mem (n : Int) ∧
    (sizeof_ptr : Int) ∣ (0 : Int) ∧ (sizeof_ptr : Int) ∣ (n : Int) * (sizeof_ptr : Int) ∧
    (sizeof_ptr : Int) ∣ 2 * (n : Int) * (sizeof_ptr : Int) ∧
    sizeof_ptr ∣ sizeof_gendot_data_t ∧
    (∀ i : Nat, i < n →
      (sizeof_ptr : Int) ∣ gendot_data mem (n : Int) + (i : Int) * (sizeof_gendot_data_t : Int)
        + (offsetof_prodfunc_loop : Int) ∧
      (sizeof_ptr : Int) ∣ gendot_data mem (n : Int) + (i : Int) * (sizeof_gendot_data_t : Int)
        + (offsetof_prodfunc_loop_data : Int) ∧
      (sizeof_ptr : Int) ∣ gendot_data mem (n : Int) + (i : Int) * (sizeof_gendot_data_t : Int)
        + (offsetof_sumfunc_loop : Int) ∧
      (sizeof_ptr : Int) ∣ gendot_data mem (n : Int) + (i : Int) * (sizeof_gendot_data_t : Int)
        + (offsetof_sumfunc_loop_data : Int) ∧
      (sizeof_ptr : Int) ∣ gendot_data mem (n : Int) + (i : Int) * (sizeof_gendot_data_t : Int)
        + (offsetof_sumfunc_loop_itemsize : Int) ∧
      gendot_funcs mem + (i : Int) * (sizeof_ptr : Int) + (sizeof_ptr : Int)
        ≤ gendot_typecodes mem (n : Int) ∧
      gendot_data_ptrs mem (n : Int) + (i : Int) * (sizeof_ptr : Int) + (sizeof_ptr : Int)
        ≤ gendot_typecodes mem (n : Int) ∧
      gendot_data mem (n : Int) + (i : Int) * (sizeof_gendot_data_t : Int)
          + (sizeof_gendot_data_t : Int)
        ≤ gendot_typecodes mem (n : Int)) ∧
    gendot_typecodes mem (n : Int)
      = mem + (n : Int) * (2 * (sizeof_ptr : Int) + (sizeof_gendot_data_t : Int)) ∧
    gendot_typecodes mem (n : Int) ≤ gendot_name mem (n : Int) ∧
    gendot_name mem (n : Int) < gendot_doc mem (n : Int) name ∧
    gendot_doc mem (n : Int) name
      < mem + ((total_memory_required (n : Int) name doc : Nat) : Int) ∧
    ((total_memory_required (n : Int) name doc : Nat) : Int) < 2 ^ 64 := by
  obtain ⟨a1, a2, a3, _, a5⟩ := block_alignment mem (n : Int) hal
  simp only [sizeof_ptr, sizeof_gendot_data_t] at hfit
  obtain ⟨p2, p3, p4, p5, p6, ptot, _⟩ := block_offsets mem n name doc (by omega)
  refine ⟨by simp [gendot_funcs], ?_, ?_, a1, a2, a3, dvd_zero _, Dvd.intro_left _ rfl,
    Dvd.intro_left _ rfl, ⟨5, rfl⟩, ?_, ?_, ?_, ?_, ?_, ?_⟩
  · rw [p2]; simp only [sizeof_ptr]; push_cast; ring
  · rw [p3]; simp only [sizeof_ptr]; push_cast; ring
  · intro i hi
    obtain ⟨b1, b2, b3, b4, b5⟩ := a5 (i : Int)
    refine ⟨b1, b2, b3, b4, b5, ?_, ?_, ?_⟩
    · rw [p4]; simp only [gendot_funcs, sizeof_ptr]; push_cast; omega
    · rw [p4, p2]; simp only [sizeof_ptr]; push_cast; omega
    · rw [p4, p3]; simp only [sizeof_gendot_data_t, sizeof_ptr]; push_cast; omega
  · rw [p4]; simp only [sizeof_gendot_data_t, sizeof_ptr]; push_cast; ring
  · rw [p4, p5]; omega
  · rw [p5, p6]; omega
  · rw [p6, ptot]; omega
  · rw [ptot]; omega

/-- Witness of C17 (amended): two overloads in a block at 5000. -/
theorem block_tables_aligned_and_ordered_witness :
    gendot_data_ptrs 5000 ((2 : Nat) : Int) = 5000 + ((2 : Nat) : Int) * (sizeof_ptr : Int) ∧
      gendot_typecodes 5000 ((2 : Nat) : Int) ≤ gendot_name 5000 ((2 : Nat) : Int) :=
  ⟨(block_tables_aligned_and_ordered 5000 2 [103] [100] (by decide) (by decide)).2.1,
   (block_tables_aligned_and_ordered 5000 2 [103] [100] (by decide)
      (by decide)).2.2.2.2.2.2.2.2.2.2.2.2.1⟩

/-- Inside an allocated block no pointer sum wraps: when the block size has not wrapped
and the block lies in the address space (`0 ≤ mem` and
`mem + total_memory_required ≤ 2^64`), the addresses of the six tables, computed on
the integers, are their own residues modulo `2^64`, that is the machine's pointers. -/
theorem block_pointer_sums_exact (mem : Int) (n : Nat) (name doc : List Nat)
    (hfit : n * sizeof_ptr + n * sizeof_ptr + n * sizeof_gendot_data_t + 3 * n
      + (name.length + 1) + (doc.length + 1) < 2 ^ 64)
    (h0 : 0 ≤ mem)
    (h1 : mem + ((total_memory_required (n : Int) name doc : Nat) : Int) ≤ 2 ^ 64) :
    gendot_funcs mem % 2 ^ 64 = gendot_funcs mem ∧
    gendot_data_ptrs mem (n : Int) % 2 ^ 64 = gendot_data_ptrs mem (n : Int) ∧
    gendot_data mem (n : Int) % 2 ^ 64 = gendot_data mem (n : Int) ∧
    gendot_typecodes mem (n : Int) % 2 ^ 64 = gendot_typecodes mem (n : Int) ∧
    gendot_name mem (n : Int) % 2 ^ 64 = gendot_name mem (n : Int) ∧
    gendot_doc mem (n : Int) name % 2 ^ 64 = gendot_doc mem (n : Int) name := by
  simp only [sizeof_ptr, sizeof_gendot_data_t] at hfit
  obtain ⟨p2, p3, p4, p5, p6, ptot, _⟩ := block_offsets mem n name doc (by omega)
  rw [ptot] at h1
  rw [p2, p3, p4, p5, p6]
  simp only [gendot_funcs]
  refine ⟨?_, ?_, ?_, ?_, ?_, ?_⟩ <;> omega

/-! ## Coverage of the block by the stores -/

theorem byte_in_merge (lo mid hi a : Int) (h1 : lo ≤ mid) (h2 : mid ≤ hi) :
    byte_in lo mid a + byte_in mid hi a = byte_in lo hi a := by
  unfold byte_in
  split_ifs <;> omega

theorem byte_in_empty (lo a : Int) : byte_in lo lo a = 0 := by
  unfold byte_in
  split_ifs <;> omega

theorem writes_at_append (l1 l2 : List Store) (a : Int) :
    writes_at (l1 ++ l2) a = writes_at l1 a + writes_at l2 a := by
  simp [writes_at, List.countP_append]

theorem writes_at_store (h : Heap) (addr : Int) (size : Nat) (v : Val) (a : Int) :
    writes_at (h.store addr size v).stores a
      = writes_at h.stores a + byte_in addr (addr + (size : Int)) a := by
  simp only [Heap.store, writes_at_append]
  congr 1
  simp only [writes_at, byte_in, List.countP_cons, List.countP_nil, zero_add]
  split_ifs <;> simp_all

theorem storeBytes_succ (h : Heap) (dest : Int) (src : List Nat) (n : Nat) :
    storeBytes h dest src (n + 1)
      = (storeBytes h dest src n).store (dest + (n : Int)) 1 (Val.byte (src.getD n 0)) := by
  simp only [storeBytes, List.range_succ, List.foldl_append, List.foldl_cons, List.foldl_nil]

theorem writes_at_storeBytes (h : Heap) (dest : Int) (src : List Nat) (a : Int) :
    ∀ n : Nat, writes_at (storeBytes h dest src n).stores a
      = writes_at h.stores a + byte_in dest (dest + (n : Int)) a := by
  intro n
  induction n with
  | zero =>
    have : storeBytes h dest src 0 = h := rfl
    rw [this]
    simp [byte_in_empty]
  | succ n ih =>
    rw [storeBytes_succ, writes_at_store, ih, add_assoc,
      byte_in_merge dest (dest + (n : Int)) (dest + (n : Int) + ((1 : Nat) : Int)) a
        (by omega) (by omega)]
    push_cast
    rw [add_assoc]

theorem five_fields_in (r a : Int) :
    byte_in (r + 0) (r + 0 + 8) a + byte_in (r + 8) (r + 8 + 8) a
        + byte_in (r + 16) (r + 16 + 8) a + byte_in (r + 24) (r + 24 + 8) a
        + byte_in (r + 32) (r + 32 + 8) a
      = byte_in r (r + 40) a := by
  unfold byte_in
  split_ifs <;> omega

theorem writes_at_fill_body (loop_addr : Int) (prodfunc sumfunc : PyUFuncObject)
    (pairs : List func_index_pair) (itemsizes : List Int) (mem nloops i : Int) (h : Heap)
    (a : Int) :
    writes_at (fill_body loop_addr prodfunc sumfunc pairs itemsizes mem nloops i h).stores a
      = writes_at h.stores a
        + byte_in (mem + i * 8) (mem + i * 8 + 8) a
        + byte_in (gendot_data mem nloops + i * 40) (gendot_data mem nloops + i * 40 + 40) a
        + byte_in (gendot_data_ptrs mem nloops + i * 8)
            (gendot_data_ptrs mem nloops + i * 8 + 8) a := by
  rw [← five_fields_in]
  simp only [fill_body, writes_at_store, gendot_funcs, sizeof_ptr, sizeof_gendot_data_t,
    offsetof_prodfunc_loop, offsetof_prodfunc_loop_data, offsetof_sumfunc_loop,
    offsetof_sumfunc_loop_data, offsetof_sumfunc_loop_itemsize]
  push_cast
  ring_nf

theorem writes_at_fill_loop (loop_addr : Int) (prodfunc sumfunc : PyUFuncObject)
    (pairs : List func_index_pair) (itemsizes : List Int) (mem : Int) (N : Nat)
    (hN : (N : Int) < 2 ^ 31) (a : Int) :
    ∀ (fuel k : Nat) (h h2 : Heap), k ≤ N →
      fill_loop loop_addr prodfunc sumfunc pairs itemsizes mem (N : Int) fuel (k : Int) h
        = some h2 →
      writes_at h2.stores a
        = writes_at h.stores a
          + byte_in (mem + (k : Int) * 8) (mem + (N : Int) * 8) a
          + byte_in (gendot_data mem (N : Int) + (k : Int) * 40)
              (gendot_data mem (N : Int) + (N : Int) * 40) a
          + byte_in (gendot_data_ptrs mem (N : Int) + (k : Int) * 8)
              (gendot_data_ptrs mem (N : Int) + (N : Int) * 8) a := by
  intro fuel
  induction fuel with
  | zero =>
    intro k h h2 hkN hr
    by_cases hk : (k : Int) < (N : Int)
    · rw [fill_loop, if_pos hk] at hr; exact absurd hr (by simp)
    · rw [fill_loop, if_neg hk] at hr
      have hkeq : k = N := by omega
      subst hkeq
      rw [← Option.some.inj hr]
      simp [byte_in_empty]
  | succ fuel ih =>
    intro k h h2 hkN hr
    by_cases hk : (k : Int) < (N : Int)
    · rw [fill_loop, if_pos hk] at hr
      have hw : wrapInt ((k : Int) + 1) = ((k + 1 : Nat) : Int) := by
        rw [wrapInt_of_range] <;> push_cast <;> omega
      rw [hw] at hr
      rw [ih (k + 1) _ h2 (by omega) hr, writes_at_fill_body]
      rw [← byte_in_merge (mem + (k : Int) * 8) (mem + (k : Int) * 8 + 8) (mem + (N : Int) * 8) a
          (by omega) (by omega),
        ← byte_in_merge (gendot_data mem (N : Int) + (k : Int) * 40)
          (gendot_data mem (N : Int) + (k : Int) * 40 + 40)
          (gendot_data mem (N : Int) + (N : Int) * 40) a (by omega) (by omega),
        ← byte_in_merge (gendot_data_ptrs mem (N : Int) + (k : Int) * 8)
          (gendot_data_ptrs mem (N : Int) + (k : Int) * 8 + 8)
          (gendot_data_ptrs mem (N : Int) + (N : Int) * 8) a (by omega) (by omega)]
      have e1 : mem + ((k + 1 : Nat) : Int) * 8 = mem + (k : Int) * 8 + 8 := by
        push_cast; ring
      have e2 : gendot_data mem (N : Int) + ((k + 1 : Nat) : Int) * 40
          = gendot_data mem (N : Int) + (k : Int) * 40 + 40 := by push_cast; ring
      have e3 : gendot_data_ptrs mem (N : Int) + ((k + 1 : Nat) : Int) * 8
          = gendot_data_ptrs mem (N : Int) + (k : Int) * 8 + 8 := by push_cast; ring
      rw [e1, e2, e3]
      ring
    · rw [fill_loop, if_neg hk] at hr
      have hkeq : k = N := by omega
      subst hkeq
      rw [← Option.some.inj hr]
      simp [byte_in_empty]

theorem writes_at_fill_copies (mem nloops : Int) (name doc typecodes : List Nat) (a : Int) :
    writes_at (fill_copies mem nloops name doc typecodes Heap.empty).stores a
      = byte_in (gendot_typecodes mem nloops)
          (gendot_typecodes mem nloops + (sizeof_gendot_typecodes nloops : Int)) a
        + byte_in (gendot_name mem nloops)
          (gendot_name mem nloops + ((name.length + 1 : Nat) : Int)) a
        + byte_in (gendot_doc mem nloops name)
          (gendot_doc mem nloops name + ((doc.length + 1 : Nat) : Int)) a := by
  simp only [fill_copies, strcpy, writes_at_storeBytes]
  simp [Heap.empty, writes_at]

theorem mem_stores_writes_at (l : List Store) (st : Store) (a : Int) (hst : st ∈ l)
    (h1 : st.addr ≤ a) (h2 : a < st.addr + (st.size : Int)) : 1 ≤ writes_at l a := by
  unfold writes_at
  exact List.countP_pos_iff.2 ⟨st, hst, by simp [h1, h2]⟩

/-! ## The fill loop step by step -/

theorem fill_loop_eq_fill_steps (loop_addr : Int) (prodfunc sumfunc : PyUFuncObject)
    (pairs : List func_index_pair) (itemsizes : List Int) (mem nloops : Int) :
    ∀ (fuel : Nat) (i : Int) (h : Heap),
      fill_loop loop_addr prodfunc sumfunc pairs itemsizes mem nloops fuel i h
        = if (fill_steps loop_addr prodfunc sumfunc pairs itemsizes mem nloops fuel i h).1 < nloops
          then none
          else some (fill_steps loop_addr prodfunc sumfunc pairs itemsizes mem nloops fuel i h).2 := by
  intro fuel
  induction fuel with
  | zero =>
    intro i h
    simp only [fill_loop, fill_steps]
  | succ fuel ih =>
    intro i h
    by_cases hi : i < nloops
    · simp only [fill_loop, fill_steps, if_pos hi]
      exact ih _ _
    · simp only [fill_loop, fill_steps, if_neg hi]

theorem gendot_fill_eq_steps (loop_addr : Int) (fuel : Nat) (name doc : List Nat)
    (prodfunc sumfunc : PyUFuncObject) (loop_indices : NpyArray func_index_pair)
    (typecodes : NpyArray Nat) (itemsizes : NpyArray Int) (mem : Int) :
    gendot_fill loop_addr fuel name doc prodfunc sumfunc loop_indices typecodes itemsizes mem
      = if (gendot_fill_steps loop_addr fuel name doc prodfunc sumfunc loop_indices typecodes
            itemsizes mem).1 < (loop_indices.data.length : Int)
        then none
        else some (gendot_fill_steps loop_addr fuel name doc prodfunc sumfunc loop_indices
            typecodes itemsizes mem).2 :=
  fill_loop_eq_fill_steps loop_addr prodfunc sumfunc loop_indices.data itemsizes.data mem
    (loop_indices.data.length : Int) fuel 0 _

theorem fill_steps_one (loop_addr : Int) (prodfunc sumfunc : PyUFuncObject)
    (pairs : List func_index_pair) (itemsizes : List Int) (mem nloops : Int) (i : Int)
    (h : Heap) (hi : i < nloops) :
    fill_steps loop_addr prodfunc sumfunc pairs itemsizes mem nloops 1 i h
      = (wrapInt (i + 1),
         fill_body loop_addr prodfunc sumfunc pairs itemsizes mem nloops i h) := by
  simp only [fill_steps, if_pos hi]

theorem fill_steps_add (loop_addr : Int) (prodfunc sumfunc : PyUFuncObject)
    (pairs : List func_index_pair) (itemsizes : List Int) (mem nloops : Int) (b : Nat) :
    ∀ (a : Nat) (i : Int) (h : Heap),
      fill_steps loop_addr prodfunc sumfunc pairs itemsizes mem nloops (a + b) i h
        = fill_steps loop_addr prodfunc sumfunc pairs itemsizes mem nloops b
            (fill_steps loop_addr prodfunc sumfunc pairs itemsizes mem nloops a i h).1
            (fill_steps loop_addr prodfunc sumfunc pairs itemsizes mem nloops a i h).2 := by
  intro a
  induction a with
  | zero =>
    intro i h
    rw [Nat.zero_add]
    simp only [fill_steps]
  | succ a ih =>
    intro i h
    rw [Nat.succ_add]
    by_cases hi : i < nloops
    · simp only [fill_steps, if_pos hi]
      exact ih _ _
    · simp only [fill_steps, if_neg hi]
      cases b with
      | zero => simp only [fill_steps]
      | succ b => simp only [fill_steps, if_neg hi]

theorem fill_steps_counter (loop_addr : Int) (prodfunc sumfunc : PyUFuncObject)
    (pairs : List func_index_pair) (itemsizes : List Int) (mem nloops : Int) :
    ∀ (t k : Nat) (h : Heap), ((k + t : Nat) : Int) ≤ nloops → k + t < 2 ^ 31 →
      (fill_steps loop_addr prodfunc sumfunc pairs itemsizes mem nloops t (k : Int) h).1
        = ((k + t : Nat) : Int) := by
  intro t
  induction t with
  | zero =>
    intro k h _ _
    simp only [fill_steps, Nat.add_zero]
  | succ t ih =>
    intro k h h1 h2
    have hk : (k : Int) < nloops := by push_cast at h1; omega
    have hw : wrapInt ((k : Int) + 1) = ((k + 1 : Nat) : Int) := by
      rw [wrapInt_of_range] <;> push_cast <;> omega
    simp only [fill_steps, if_pos hk, hw]
    rw [ih (k + 1) _ (by push_cast at h1 ⊢; omega) (by omega)]
    push_cast
    ring

theorem fill_body_first_store (loop_addr : Int) (prodfunc sumfunc : PyUFuncObject)
    (pairs : List func_index_pair) (itemsizes : List Int) (mem nloops i : Int) (h : Heap) :
    { addr := gendot_funcs mem + i * (sizeof_ptr : Int), size := sizeof_ptr,
      val := Val.fn loop_addr }
      ∈ (fill_body loop_addr prodfunc sumfunc pairs itemsizes mem nloops i h).stores := by
  simp only [fill_body, Heap.store]
  simp

theorem fill_steps_two_pow_31 (loop_addr : Int) (prodfunc sumfunc : PyUFuncObject)
    (pairs : List func_index_pair) (itemsizes : List Int) (mem : Int) (h0 : Heap) :
    (fill_steps loop_addr prodfunc sumfunc pairs itemsizes mem (2 ^ 31) (2 ^ 31) 0 h0).1
      = -2 ^ 31 ∧
    { addr := mem - 2 ^ 34, size := 8, val := Val.fn loop_addr }
      ∈ (fill_steps loop_addr prodfunc sumfunc pairs itemsizes mem (2 ^ 31) (2 ^ 31 + 1) 0
          h0).2.stores := by
  have c1 := fill_steps_counter loop_addr prodfunc sumfunc pairs itemsizes mem (2 ^ 31)
    2147483647 0 h0 (by norm_num) (by norm_num)
  have c1b : (fill_steps loop_addr prodfunc sumfunc pairs itemsizes mem (2 ^ 31)
      2147483647 0 h0).1 = 2147483647 := by
    have := c1
    simpa using this
  have e1 : (2 ^ 31 : Nat) = 2147483647 + 1 := by norm_num
  have w1 : wrapInt (2147483647 + 1) = -2 ^ 31 := by decide
  have w2 : (-2 ^ 31 : Int) < 2 ^ 31 := by decide
  have s1 : fill_steps loop_addr prodfunc sumfunc pairs itemsizes mem (2 ^ 31)
      (2147483647 + 1) 0 h0
      = (-2 ^ 31, fill_body loop_addr prodfunc sumfunc pairs itemsizes mem (2 ^ 31) 2147483647
          (fill_steps loop_addr prodfunc sumfunc pairs itemsizes mem (2 ^ 31)
            2147483647 0 h0).2) := by
    rw [fill_steps_add, c1b, fill_steps_one _ _ _ _ _ _ _ _ _ (by norm_num), w1]
  refine ⟨?_, ?_⟩
  · rw [e1, s1]
  · rw [e1, fill_steps_add, s1, fill_steps_one _ _ _ _ _ _ _ _ _ w2]
    have := fill_body_first_store loop_addr prodfunc sumfunc pairs itemsizes mem (2 ^ 31)
      (-2 ^ 31) (fill_body loop_addr prodfunc sumfunc pairs itemsizes mem (2 ^ 31) 2147483647
          (fill_steps loop_addr prodfunc sumfunc pairs itemsizes mem (2 ^ 31)
            2147483647 0 h0).2)
    have ea : gendot_funcs mem + (-2 ^ 31 : Int) * (sizeof_ptr : Int) = mem - 2 ^ 34 := by
      simp only [gendot_funcs, sizeof_ptr]; push_cast; ring
    rw [ea] at this
    exact this

/-! ## Claim C19 -/

/-- C19 fails as stated: with `2^31` overloads, in a block at `2^35` whose size
`59 * 2^31 + 4` has not wrapped, the counter `i` is `-2^31` after `2^31` iterations
of the fill loop, `i < nloops` still holds, and the next iteration stores the
dispatcher at `gendot_funcs[-2^31]`, the 8 bytes at `2^35 - 2^34`: a write that lies
below the block. -/
theorem gendot_fill_two_pow_31_writes_below_block :
    total_memory_required (exIdxHuge.data.length : Int) [103] [100] = 59 * 2 ^ 31 + 4 ∧
    (gendot_fill_steps 9999 (2 ^ 31) [103] [100] exProd exSum exIdxHuge exTypesHuge
      exSizesHuge (2 ^ 35)).1 = -2 ^ 31 ∧
    (-2 ^ 31 : Int) < (exIdxHuge.data.length : Int) ∧
    ∃ st : Store,
      st ∈ (gendot_fill_steps 9999 (2 ^ 31 + 1) [103] [100] exProd exSum exIdxHuge exTypesHuge
        exSizesHuge (2 ^ 35)).2.stores ∧
      st.addr = 2 ^ 35 - 2 ^ 34 ∧ st.size = 8 ∧ st.addr + (st.size : Int) ≤ 2 ^ 35 := by
  have hI : exIdxHuge.data.length = 2 ^ 31 := List.length_replicate _ _
  have hlen : ((exIdxHuge.data.length : Nat) : Int) = 2 ^ 31 := by
    rw [hI]; norm_num
  have key := fill_steps_two_pow_31 9999 exProd exSum exIdxHuge.data exSizesHuge.data (2 ^ 35)
    (fill_copies (2 ^ 35) (2 ^ 31) [103] [100] exTypesHuge.data Heap.empty)
  simp only [gendot_fill_steps]
  rw [hlen]
  refine ⟨by decide, key.1, by decide, ⟨_, key.2, rfl, rfl, by decide⟩⟩

/-- The size condition of the coverage theorem cannot be dropped: with no overload and
a name and a doc string of `2^63 - 1` characters each, the block size computed is 0
(the sum `2^64` wraps in `size_t`), and the fill phase writes a byte at offset 0 of
the block, which is not below the block size. -/
theorem gendot_fill_writes_outside_block :
    total_memory_required 0 exNameHuge exNameHuge = 0 ∧
    ∃ h, gendot_fill 9999 0 exNameHuge exNameHuge exProd exSum (exEmpty func_index_pair)
        (exEmpty Nat) (exEmpty Int) 5000 = some h ∧
      ∃ st, st ∈ h.stores ∧ st.addr = 5000 + 0 ∧ st.size = 1 := by
  have hl : exNameHuge.length = 2 ^ 63 - 1 := List.length_replicate _ _
  have hs : strlen exNameHuge = 2 ^ 63 - 1 := by
    unfold strlen; rw [hl]; decide
  have ht : total_memory_required 0 exNameHuge exNameHuge = 0 := by
    unfold total_memory_required; rw [hs]; decide
  have hname : gendot_name 5000 0 = 5000 := by decide
  refine ⟨ht, fill_copies 5000 0 exNameHuge exNameHuge [] Heap.empty, ?_, ?_⟩
  · have h0 : ¬ ((0 : Int) < 0) := by decide
    show fill_loop 9999 exProd exSum [] [] 5000 0 0 0
        (fill_copies 5000 0 exNameHuge exNameHuge [] Heap.empty) = _
    rw [fill_loop, if_neg h0]
  · refine ⟨{ addr := 5000 + ((0 : Nat) : Int), size := 1,
              val := Val.byte ((exNameHuge ++ [0]).getD 0 0) }, ?_, rfl, rfl⟩
    unfold fill_copies strcpy
    rw [(storeBytes_upto _ _ _ _).2.2, (storeBytes_upto _ _ _ _).2.2, hname]
    apply List.mem_append_left
    apply List.mem_append_right
    exact List.mem_map.2 ⟨0, List.mem_range.2 (by omega), rfl⟩

/-- C19 (amended).  For every `nloops ≤ 2^31 - 1` and every name and doc string for
which the sum of the six region sizes is below `2^64`, with enough fuel the fill
phase returns a block in which every byte of the block, from `mem` up to
`mem + total_memory_required`, is written by exactly one store and no byte outside
the block is written by any store: no write leaves the block, no two writes overlap,
and no byte of the block is left unwritten. -/
theorem gendot_fill_writes_block_once (loop_addr : Int) (fuel : Nat) (name doc : List Nat)
    (prodfunc sumfunc : PyUFuncObject) (loop_indices : NpyArray func_index_pair)
    (typecodes : NpyArray Nat) (itemsizes : NpyArray Int) (mem : Int)
    (hN : loop_indices.data.length < 2 ^ 31) (hfuel : loop_indices.data.length ≤ fuel)
    (hfit : loop_indices.data.length * sizeof_ptr + loop_indices.data.length * sizeof_ptr
      + loop_indices.data.length * sizeof_gendot_data_t + 3 * loop_indices.data.length
      + (name.length + 1) + (doc.length + 1) < 2 ^ 64) :
    ∃ h, gendot_fill loop_addr fuel name doc prodfunc sumfunc loop_indices typecodes
        itemsizes mem = some h ∧
      (∀ a : Int, writes_at h.stores a
        = if mem ≤ a ∧ a < mem
            + ((total_memory_required (loop_indices.data.length : Int) name doc : Nat) : Int)
          then 1 else 0) ∧
      (∀ st, st ∈ h.stores → ∀ a : Int, st.addr ≤ a → a < st.addr + (st.size : Int) →
        mem ≤ a ∧ a < mem
          + ((total_memory_required (loop_indices.data.length : Int) name doc : Nat) : Int)) := by
  obtain ⟨h, hret⟩ := gendot_fill_returns loop_addr fuel name doc prodfunc sumfunc loop_indices
    typecodes itemsizes mem hN hfuel
  have hNi : ((loop_indices.data.length : Nat) : Int) < 2 ^ 31 := by exact_mod_cast hN
  simp only [sizeof_ptr, sizeof_gendot_data_t] at hfit
  obtain ⟨q2, q3, q4, q5, q6, ltot, hT⟩ :=
    block_offsets mem loop_indices.data.length name doc (by omega)
  have hcount : ∀ a : Int, writes_at h.stores a
      = byte_in mem (mem + ((total_memory_required (loop_indices.data.length : Int) name doc
          : Nat) : Int)) a := by
    intro a
    have hloop := writes_at_fill_loop loop_addr prodfunc sumfunc loop_indices.data
      itemsizes.data mem loop_indices.data.length hNi a fuel 0
      (fill_copies mem (loop_indices.data.length : Int) name doc typecodes.data Heap.empty) h
      (by omega) (by simpa [gendot_fill] using hret)
    rw [hloop, writes_at_fill_copies, hT, ltot]
    rw [q2, q3, q4, q5, q6]
    unfold byte_in
    push_cast
    split_ifs <;> omega
  refine ⟨h, hret, ?_, ?_⟩
  · intro a
    rw [hcount a, byte_in]
  · intro st hst a h1 h2
    have hpos := mem_stores_writes_at h.stores st a hst h1 h2
    rw [hcount a, byte_in] at hpos
    by_contra hcon
    rw [if_neg hcon] at hpos
    omega

/-- Witness of C19 (amended): two overloads, one-character name and doc; the 122 bytes
from 5000 to 5121 are each written once. -/
theorem gendot_fill_writes_block_once_witness :
    ∃ h, gendot_fill 9999 2 [103] [100] exProd exSum exIdx exTypes exSizes 5000 = some h ∧
      (∀ a : Int, writes_at h.stores a
        = if 5000 ≤ a ∧ a < 5000
            + ((total_memory_required (exIdx.data.length : Int) [103] [100] : Nat) : Int)
          then 1 else 0) ∧
      (∀ st, st ∈ h.stores → ∀ a : Int, st.addr ≤ a → a < st.addr + (st.size : Int) →
        5000 ≤ a ∧ a < 5000
          + ((total_memory_required (exIdx.data.length : Int) [103] [100] : Nat) : Int)) :=
  gendot_fill_writes_block_once 9999 2 [103] [100] exProd exSum exIdx exTypes exSizes 5000
    (by decide) (by decide) (by decide)

end Gendot
